import Mathlib

/-!
Image-corrupter: a shallow embedding of `main.go`

The three-stage pixel pipeline of `main.go` (dissolve and block tear, per-channel scan lag
and brighten, chromatic aberration with in-place trails) together with its helpers `wrap`,
`offset` and `brighten`.

Modelling conventions.

* Go `int` coordinates and byte indices are `Int`; pixel bytes (`uint8`) are `Nat` values
  below 256.  The product `bHeight*b.Max.X` handed to `Intn`, whose factor `bHeight` is a
  free command-line flag, is reduced to the 64-bit range with `int64`.  The sums that make
  up coordinates and byte indices are kept exact: a coordinate that lies in the range of
  `wrap` and an index that lies inside a buffer are far inside the 64-bit range, where the
  exact and the 64-bit results agree.  The `uint32` arithmetic of `brighten` is written
  with explicit reductions modulo `2^32`, the narrowing to `uint8` with a reduction modulo
  `256`.
* `float64` arithmetic is not interpreted: the operations the program uses (`+`, `*`,
  `float64(int)`, `int(float64)`, the constant `0.`) are the fields of `FloatOps`, and the
  general theorems about the stages hold for all interpretations.  The theorem about the
  conversion in `offset` reads finite `float64` values as exact decimals `Dec` and takes
  `int(float64)` to be truncation toward zero.
* The process-wide generator `seededRand` is threaded explicitly.  Its behaviour is the
  fields of `RandSource` (an arbitrary deterministic generator), and the number of calls
  made is counted in `Rng.calls`.
* A Go run-time panic (index or slice out of range, `Intn` with a non-positive argument) is
  the result `none`.  Pixel buffers are lists of bytes whose capacity equals their length,
  as for the buffers allocated by the `image` package.
* The decoded image has its rectangle at the origin (`b.Min = (0,0)`, as delivered by
  `png.Decode`), so `b.Max.X` and `b.Max.Y` are the width `w` and the height `h`, and
  `image.NewNRGBA(b)` has stride `4*w` and `4*w*h` bytes.
* The concrete interpretations at the end of the definitions (`decOps`, `scripted`, the flag
  sets and draw scripts) serve to evaluate the model on explicit runs.
-/

namespace ImageCorrupter

/-! ## Helpers of `main.go` -/

/-- Toroidal index mapper `wrap(x, b)` (main.go, lines 23-31). -/
def wrap (x b : Int) : Int :=
  if x < 0 then x + b
  else if x ≥ b then x - b
  else x

/-- The value of an exact integer result in the 64-bit type `int`: reduction modulo `2^64`
to the range `[-2^63, 2^63)`. -/
def int64 (n : Int) : Int :=
  (n + 9223372036854775808) % 18446744073709551616 - 9223372036854775808

/-- Modulus of the `uint32` type. -/
def u32 : Nat := 4294967296

/-- Addition of two `uint32` values. -/
def u32add (a b : Nat) : Nat := (a + b) % u32

/-- Subtraction of two `uint32` values (wraps around below zero). -/
def u32sub (a b : Nat) : Nat := (a + (u32 - b % u32)) % u32

/-- Multiplication of two `uint32` values. -/
def u32mul (a b : Nat) : Nat := (a * b) % u32

/-- Conversion `uint8(v)` of a `uint32` value. -/
def toUint8 (v : Nat) : Nat := v % 256

/-- Function `brighten(r, add)` (main.go, lines 40-43):
`uint8(r32 - r32*add32/255 + add32)` with `r32, add32 := uint32(r), uint32(add)`. -/
def brighten (r add : Nat) : Nat :=
  let r32 := r % u32
  let add32 := add % u32
  toUint8 (u32add (u32sub r32 (u32mul r32 add32 / 255)) add32)

/-! ## Floating point and the random source -/

/-- The `float64` operations used by `main.go`: the constant `0.`, `+`, `*`, the conversion
`float64(n)` of an `int` and the conversion `int(f)` (truncation toward zero). -/
structure FloatOps (F : Type) where
  zero : F
  add : F → F → F
  mul : F → F → F
  ofInt : Int → F
  toInt : F → Int

/-- A deterministic generator in the sense of `math/rand`: `NewSource seed` builds a state,
`Intn g n` and `NormFloat64 g` return a draw together with the next state. -/
structure RandSource (F G : Type) where
  NewSource : Int → G
  Intn : G → Int → Int × G
  NormFloat64 : G → F × G

/-- The variable `seededRand`: a generator state and the number of draws made so far. -/
structure Rng (G : Type) where
  gen : G
  calls : Nat
  deriving DecidableEq

/-- Call `seededRand.Intn(n)`; it panics when `n ≤ 0`. -/
def randIntn {F G : Type} (rs : RandSource F G) (r : Rng G) (n : Int) :
    Option (Int × Rng G) :=
  if n ≤ 0 then none
  else some ((rs.Intn r.gen n).1, ⟨(rs.Intn r.gen n).2, r.calls + 1⟩)

/-- Call `seededRand.NormFloat64()`. -/
def randNormFloat64 {F G : Type} (rs : RandSource F G) (r : Rng G) : F × Rng G :=
  ((rs.NormFloat64 r.gen).1, ⟨(rs.NormFloat64 r.gen).2, r.calls + 1⟩)

/-- Function `offset(stddev)` (main.go, lines 34-37): one normal draw times `stddev`,
converted with `int(sample)`. -/
def offset {F G : Type} (fo : FloatOps F) (rs : RandSource F G) (stddev : F) (r : Rng G) :
    Int × Rng G :=
  (fo.toInt (fo.mul (randNormFloat64 rs r).1 stddev), (randNormFloat64 rs r).2)

/-- The variable `sample` of `offset` (main.go, line 35): the normal draw times `stddev`. -/
def offsetSample {F G : Type} (fo : FloatOps F) (rs : RandSource F G) (stddev : F)
    (r : Rng G) : F :=
  fo.mul (randNormFloat64 rs r).1 stddev

/-- Seeding of `seededRand` (main.go, lines 14 and 71-75): the package-level generator is
`NewSource(1)`; the flag value `-1` replaces it by one seeded from the clock reading `now`,
any other value different from `1` by one seeded from the flag. -/
def seedRand {F G : Type} (rs : RandSource F G) (seed now : Int) : Rng G :=
  if seed = -1 then ⟨rs.NewSource now, 0⟩
  else if seed ≠ 1 then ⟨rs.NewSource seed, 0⟩
  else ⟨rs.NewSource 1, 0⟩

/-- The command-line flags read by the three stages (main.go, lines 52-65). -/
structure Params (F : Type) where
  mag : F
  bheight : Int
  boffset : F
  strideMag : F
  lag : F
  lr : F
  lg : F
  lb : F
  stdoffset : F
  add : Int
  meanabber : Int
  stdabber : F

/-! ## Pixel buffers -/

/-- The four bytes of a pixel, in memory order. -/
structure RGBA where
  r : Nat
  g : Nat
  b : Nat
  a : Nat
  deriving DecidableEq

/-- Index expression `pix[i]`; it panics outside `0 ≤ i < len(pix)`. -/
def readByte (pix : List Nat) (i : Int) : Option Nat :=
  if 0 ≤ i ∧ i < pix.length then some (pix.getD i.toNat 0) else none

/-- Slice expression `pix[i:i+4]` read as a pixel; it panics unless
`0 ≤ i` and `i+4 ≤ len(pix)`. -/
def readPixel (pix : List Nat) (i : Int) : Option RGBA :=
  if 0 ≤ i ∧ i + 4 ≤ pix.length then
    some ⟨pix.getD i.toNat 0, pix.getD (i.toNat + 1) 0, pix.getD (i.toNat + 2) 0,
      pix.getD (i.toNat + 3) 0⟩
  else none

/-- Statement `copy(pix[i:i+4], px)` for a four-byte source; it panics unless
`0 ≤ i` and `i+4 ≤ len(pix)`. -/
def writePixel (pix : List Nat) (i : Int) (px : RGBA) : Option (List Nat) :=
  if 0 ≤ i ∧ i + 4 ≤ pix.length then
    some ((((pix.set i.toNat px.r).set (i.toNat + 1) px.g).set (i.toNat + 2) px.b).set
      (i.toNat + 3) px.a)
  else none

/-- Pixel buffer of `image.NewNRGBA` for a `w × h` rectangle at the origin: stride `4*w`,
`4*w*h` zero bytes. -/
def newNRGBA (w h : Nat) : List Nat := List.replicate (4 * w * h) 0

/-- The order in which the nested loops `for y ... { for x ... }` visit the pixels. -/
def scanOrder (w h : Nat) : List (Nat × Nat) :=
  (List.range h).flatMap fun y => (List.range w).map fun x => (x, y)

/-- Run a loop body over a list of pixels, stopping at the first panic. -/
def forPixels {σ : Type} (body : σ → Nat × Nat → Option σ) : List (Nat × Nat) → σ → Option σ
  | [], s => some s
  | c :: cs, s =>
    match body s c with
    | none => none
    | some s' => forPixels body cs s'

/-! ## Stage 1: dissolve and block corruption (main.go, lines 113-144) -/

/-- The variables of stage 1 that live across iterations. -/
structure Stage1State (F G : Type) where
  rng : Rng G
  lineOff : Int
  stride : F
  yset : Int

/-- Lines 125-129: with `Intn(bHeight*width) == 0` a new distorted block begins.  The
product `bHeight*b.Max.X` is computed in the 64-bit type `int`. -/
def stage1Block {F G : Type} (fo : FloatOps F) (rs : RandSource F G) (p : Params F) (w : Nat)
    (st : Stage1State F G) (y : Nat) : Option (Stage1State F G) :=
  match randIntn rs st.rng (int64 (p.bheight * w)) with
  | none => none
  | some (k, r1) =>
    if k = 0 then
      some ⟨(randNormFloat64 rs (offset fo rs p.boffset r1).2).2,
        (offset fo rs p.boffset r1).1,
        fo.mul (randNormFloat64 rs (offset fo rs p.boffset r1).2).1 p.strideMag,
        y⟩
    else some ⟨r1, st.lineOff, st.stride, st.yset⟩

/-- Lines 125-136: the draws of one iteration; the result is `(offx, offy)` and the
updated variables. -/
def stage1Draw {F G : Type} (fo : FloatOps F) (rs : RandSource F G) (p : Params F) (w : Nat)
    (st : Stage1State F G) (y : Nat) : Option ((Int × Int) × Stage1State F G) :=
  match stage1Block fo rs p w st y with
  | none => none
  | some s1 =>
    let strideOff := fo.toInt (fo.mul s1.stride (fo.ofInt ((y : Int) - s1.yset)))
    let o1 := offset fo rs p.mag s1.rng
    let offx := o1.1 + s1.lineOff + strideOff
    let o2 := offset fo rs p.mag o1.2
    some ((offx, o2.1), ⟨o2.2, s1.lineOff, s1.stride, s1.yset⟩)

/-- Lines 139-142: copy the source pixel at the wrapped position to `(x, y)`. -/
def stage1Copy (mRawStride w h : Nat) (mRawPix newPix : List Nat) (x y : Nat)
    (offx offy : Int) : Option (List Nat) :=
  let srcIdx := (mRawStride : Int) * wrap (y + offy) h + 4 * wrap (x + offx) w
  let dstIdx := ((4 * w : Nat) : Int) * y + 4 * x
  match readPixel mRawPix srcIdx with
  | none => none
  | some px => writePixel newPix dstIdx px

/-- One iteration of the stage-1 loop body. -/
def stage1Pixel {F G : Type} (fo : FloatOps F) (rs : RandSource F G) (p : Params F)
    (mRawStride w h : Nat) (mRawPix : List Nat)
    (s : Stage1State F G × List Nat) (c : Nat × Nat) :
    Option (Stage1State F G × List Nat) :=
  match stage1Draw fo rs p w s.1 c.2 with
  | none => none
  | some (off, st) =>
    match stage1Copy mRawStride w h mRawPix s.2 c.1 c.2 off.1 off.2 with
    | none => none
    | some pix => some (st, pix)

/-- Stage 1: the generator after the stage and the buffer `newImg.Pix`. -/
def stage1 {F G : Type} (fo : FloatOps F) (rs : RandSource F G) (p : Params F)
    (mRawStride w h : Nat) (mRawPix : List Nat) (r : Rng G) :
    Option (Stage1State F G × List Nat) :=
  forPixels (stage1Pixel fo rs p mRawStride w h mRawPix) (scanOrder w h)
    (⟨r, 0, fo.zero, 0⟩, newNRGBA w h)

/-! ## Stage 2: per-channel scan lag and brightening (main.go, lines 146-177) -/

/-- The variables of stage 2 that live across iterations. -/
structure Stage2State (F G : Type) where
  rng : Rng G
  lr : F
  lg : F
  lb : F

/-- The three horizontal offsets of one stage-2 iteration: `int(lr)-offx`, `int(lg)`,
`int(lb)+offx`. -/
structure Stage2Off where
  red : Int
  green : Int
  blue : Int

/-- Lines 155-158 and the offsets used in lines 161-163. -/
def stage2Draw {F G : Type} (fo : FloatOps F) (rs : RandSource F G) (p : Params F)
    (st : Stage2State F G) : Stage2Off × Stage2State F G :=
  let d1 := randNormFloat64 rs st.rng
  let lr := fo.add st.lr (fo.mul d1.1 p.lag)
  let d2 := randNormFloat64 rs d1.2
  let lg := fo.add st.lg (fo.mul d2.1 p.lag)
  let d3 := randNormFloat64 rs d2.2
  let lb := fo.add st.lb (fo.mul d3.1 p.lag)
  let o := offset fo rs p.stdoffset d3.2
  (⟨fo.toInt lr - o.1, fo.toInt lg, fo.toInt lb + o.1⟩, ⟨o.2, lr, lg, lb⟩)

/-- Lines 161-175: sample the three channels from `newImg`, brighten them and store the
pixel in `newImg1`. -/
def stage2Copy (w : Nat) (add : Nat) (newPix newPix1 : List Nat) (x y : Nat)
    (off : Stage2Off) : Option (List Nat) :=
  let raIdx := ((4 * w : Nat) : Int) * y + 4 * wrap (x + off.red) w
  let gIdx := ((4 * w : Nat) : Int) * y + 4 * wrap (x + off.green) w
  let bIdx := ((4 * w : Nat) : Int) * y + 4 * wrap (x + off.blue) w
  match readByte newPix raIdx, readByte newPix (raIdx + 3), readByte newPix (gIdx + 1),
    readByte newPix (bIdx + 2) with
  | some r, some a, some g, some b =>
    writePixel newPix1 (((4 * w : Nat) : Int) * y + 4 * x)
      ⟨brighten r add, brighten g add, brighten b add, a⟩
  | _, _, _, _ => none

/-- One iteration of the stage-2 loop body. -/
def stage2Pixel {F G : Type} (fo : FloatOps F) (rs : RandSource F G) (p : Params F) (w : Nat)
    (add : Nat) (newPix : List Nat)
    (s : Stage2State F G × List Nat) (c : Nat × Nat) :
    Option (Stage2State F G × List Nat) :=
  match stage2Copy w add newPix s.2 c.1 c.2 (stage2Draw fo rs p s.1).1 with
  | none => none
  | some pix => some ((stage2Draw fo rs p s.1).2, pix)

/-- Conversion `uint8(*addPtr)` of the `add` flag. -/
def addByte (add : Int) : Nat := (add % 256).toNat

/-- Stage 2: the generator after the stage and the buffer `newImg1.Pix`. -/
def stage2 {F G : Type} (fo : FloatOps F) (rs : RandSource F G) (p : Params F) (w h : Nat)
    (newPix : List Nat) (r : Rng G) : Option (Stage2State F G × List Nat) :=
  forPixels (stage2Pixel fo rs p w (addByte p.add) newPix) (scanOrder w h)
    (⟨r, p.lr, p.lg, p.lb⟩, newNRGBA w h)

/-! ## Stage 3: chromatic aberration and trails (main.go, lines 179-202) -/

/-- Line 185: `offx := meanAbber + offset(stdAbber)`. -/
def stage3Draw {F G : Type} (fo : FloatOps F) (rs : RandSource F G) (p : Params F) (r : Rng G) :
    Int × Rng G :=
  (p.meanabber + (offset fo rs p.stdabber r).1, (offset fo rs p.stdabber r).2)

/-- Lines 188-200: compose the pixel from shifted red, alpha and blue and unshifted green,
and store it in the buffer that is being read. -/
def stage3Copy (w : Nat) (newPix1 : List Nat) (x y : Nat) (offx : Int) : Option (List Nat) :=
  let raIdx := ((4 * w : Nat) : Int) * y + 4 * wrap (x + offx) w
  let gIdx := ((4 * w : Nat) : Int) * y + 4 * x
  let bIdx := ((4 * w : Nat) : Int) * y + 4 * wrap (x - offx) w
  match readByte newPix1 raIdx, readByte newPix1 (raIdx + 3), readByte newPix1 (gIdx + 1),
    readByte newPix1 (bIdx + 2) with
  | some r, some a, some g, some b =>
    writePixel newPix1 (((4 * w : Nat) : Int) * y + 4 * x) ⟨r, g, b, a⟩
  | _, _, _, _ => none

/-- One iteration of the stage-3 loop body. -/
def stage3Pixel {F G : Type} (fo : FloatOps F) (rs : RandSource F G) (p : Params F) (w : Nat)
    (s : Rng G × List Nat) (c : Nat × Nat) : Option (Rng G × List Nat) :=
  match stage3Copy w s.2 c.1 c.2 (stage3Draw fo rs p s.1).1 with
  | none => none
  | some pix => some ((stage3Draw fo rs p s.1).2, pix)

/-- Stage 3 on the stage-2 buffer. -/
def stage3 {F G : Type} (fo : FloatOps F) (rs : RandSource F G) (p : Params F) (w h : Nat)
    (newPix1 : List Nat) (r : Rng G) : Option (Rng G × List Nat) :=
  forPixels (stage3Pixel fo rs p w) (scanOrder w h) (r, newPix1)

/-! ## The pipeline -/

/-- The three stages in sequence (main.go, lines 113-202) on a decoded image of width `w`,
height `h`, row stride `mRawStride` and bytes `mRawPix`, started with generator `r`.  The
result is the generator after the last draw and the bytes of `newImg1`. -/
def corrupt {F G : Type} (fo : FloatOps F) (rs : RandSource F G) (p : Params F)
    (mRawStride w h : Nat) (mRawPix : List Nat) (r : Rng G) :
    Option (Rng G × List Nat) :=
  match stage1 fo rs p mRawStride w h mRawPix r with
  | none => none
  | some s1 =>
    match stage2 fo rs p w h s1.2 s1.1.rng with
    | none => none
    | some s2 => stage3 fo rs p w h s2.2 s2.1.rng

/-- The program from seeding to the last stage: flag `seed`, clock reading `now`. -/
def run {F G : Type} (fo : FloatOps F) (rs : RandSource F G) (p : Params F) (seed now : Int)
    (mRawStride w h : Nat) (mRawPix : List Nat) : Option (Rng G × List Nat) :=
  corrupt fo rs p mRawStride w h mRawPix (seedRand rs seed now)

/-! ## The caller obligation of `wrap` -/

/-- The precondition of `wrap`: `x` lies in `[-b, 2*b)`. -/
def inWrapRange (x : Int) (b : Nat) : Bool :=
  decide (-(b : Int) ≤ x) && decide (x < 2 * (b : Int))

/-- Every coordinate that stage 1 passes to `wrap` while it visits the pixels `cs` from the
variables `st` satisfies the precondition of `wrap`.  (Nothing is passed to `wrap` after a
panic of `Intn`.) -/
def stage1InRange {F G : Type} (fo : FloatOps F) (rs : RandSource F G) (p : Params F)
    (w h : Nat) : List (Nat × Nat) → Stage1State F G → Bool
  | [], _ => true
  | c :: cs, st =>
    match stage1Draw fo rs p w st c.2 with
    | none => true
    | some (off, st') =>
      inWrapRange (c.1 + off.1) w && inWrapRange (c.2 + off.2) h &&
        stage1InRange fo rs p w h cs st'

/-- Every coordinate that stage 2 passes to `wrap` while it visits the pixels `cs` from the
variables `st` satisfies the precondition of `wrap`. -/
def stage2InRange {F G : Type} (fo : FloatOps F) (rs : RandSource F G) (p : Params F)
    (w : Nat) : List (Nat × Nat) → Stage2State F G → Bool
  | [], _ => true
  | c :: cs, st =>
    inWrapRange (c.1 + (stage2Draw fo rs p st).1.red) w &&
      inWrapRange (c.1 + (stage2Draw fo rs p st).1.green) w &&
      inWrapRange (c.1 + (stage2Draw fo rs p st).1.blue) w &&
      stage2InRange fo rs p w cs (stage2Draw fo rs p st).2

/-- Every coordinate that stage 3 passes to `wrap` while it visits the pixels `cs` from the
generator `r` satisfies the precondition of `wrap`. -/
def stage3InRange {F G : Type} (fo : FloatOps F) (rs : RandSource F G) (p : Params F)
    (w : Nat) : List (Nat × Nat) → Rng G → Bool
  | [], _ => true
  | c :: cs, r =>
    inWrapRange (c.1 + (stage3Draw fo rs p r).1) w &&
      inWrapRange (c.1 - (stage3Draw fo rs p r).1) w &&
      stage3InRange fo rs p w cs (stage3Draw fo rs p r).2

/-- The caller obligation for a whole run of `corrupt`: in each of the three stages every
coordinate passed to `wrap` lies in `[-bound, 2*bound)`.  Stage 2 starts from the generator
that stage 1 leaves, stage 3 from the one that stage 2 leaves. -/
def wrapObligation {F G : Type} (fo : FloatOps F) (rs : RandSource F G) (p : Params F)
    (mRawStride w h : Nat) (mRawPix : List Nat) (r : Rng G) : Bool :=
  stage1InRange fo rs p w h (scanOrder w h) ⟨r, 0, fo.zero, 0⟩ &&
    match stage1 fo rs p mRawStride w h mRawPix r with
    | none => true
    | some s1 =>
      stage2InRange fo rs p w (scanOrder w h) ⟨s1.1.rng, p.lr, p.lg, p.lb⟩ &&
        match stage2 fo rs p w h s1.2 s1.1.rng with
        | none => true
        | some s2 => stage3InRange fo rs p w (scanOrder w h) s2.1.rng

/-- The pixel whose first byte is byte `n` of the buffer. -/
def pixelAt (pix : List Nat) (n : Nat) : RGBA :=
  ⟨pix.getD n 0, pix.getD (n + 1) 0, pix.getD (n + 2) 0, pix.getD (n + 3) 0⟩

/-- A tightly packed image of `n` pixels of one colour. -/
def solid (n : Nat) (px : RGBA) : List Nat :=
  (List.replicate n [px.r, px.g, px.b, px.a]).flatten

/-! ## Concrete interpretations used to evaluate the model -/

/-- Exact decimal numbers `m / 10^e`. -/
structure Dec where
  m : Int
  e : Nat

/-- Exact sum of two decimals. -/
def Dec.add (x y : Dec) : Dec := ⟨x.m * 10 ^ y.e + y.m * 10 ^ x.e, x.e + y.e⟩

/-- Exact product of two decimals. -/
def Dec.mul (x y : Dec) : Dec := ⟨x.m * y.m, x.e + y.e⟩

/-- Truncation of a decimal toward zero. -/
def Dec.toInt (x : Dec) : Int := Int.tdiv x.m (10 ^ x.e)

/-- Exact decimal arithmetic as an interpretation of the `float64` operations.  It agrees
with `float64` wherever the `float64` operation is exact, which is the case for every
operand that occurs in the evaluations below (small integers and halves, and products with
zero). -/
def decOps : FloatOps Dec :=
  ⟨⟨0, 0⟩, Dec.add, Dec.mul, fun n => ⟨n, 0⟩, Dec.toInt⟩

/-- A scripted generator: the state is a position in the script `f`, the seed is the
position at which the run starts, every call advances the position by one, `Intn` always
returns `1` (no new block begins) and `NormFloat64` at position `k` returns `f k`. -/
def scripted (f : Nat → Dec) : RandSource Dec Nat :=
  ⟨fun seed => seed.toNat, fun g _ => (1, g + 1), fun g => (f g, g + 1)⟩

/-- The default flag values (main.go, lines 52-65). -/
def defaultParams : Params Dec :=
  ⟨⟨7, 0⟩, 10, ⟨30, 0⟩, ⟨1, 1⟩, ⟨5, 3⟩, ⟨-7, 0⟩, ⟨0, 0⟩, ⟨3, 0⟩, ⟨10, 0⟩, 37, 10, ⟨10, 0⟩⟩

/-- The default flags with the initial lags and the mean aberration set to `0`:
`-lr 0 -lg 0 -lb 0 -meanabber 0`. -/
def stillParams : Params Dec :=
  ⟨⟨7, 0⟩, 10, ⟨30, 0⟩, ⟨1, 1⟩, ⟨5, 3⟩, ⟨0, 0⟩, ⟨0, 0⟩, ⟨0, 0⟩, ⟨10, 0⟩, 37, 0, ⟨10, 0⟩⟩

/-- Draws under which a 4x4 run with the default flags stays inside the precondition of
`wrap`: stage 1 (calls 0-47) draws `0`; stage 2 (calls 48-111) draws `0` for the three lags
and `-0.5` for the offset; stage 3 (calls 112-127) draws `-1`. -/
def calmDraws (k : Nat) : Dec :=
  if k < 48 then ⟨0, 0⟩
  else if k < 112 then (if (k - 48) % 4 = 3 then ⟨-5, 1⟩ else ⟨0, 0⟩)
  else ⟨-1, 0⟩

/-- Every normal draw is `2.0`. -/
def twoDraws (_ : Nat) : Dec := ⟨2, 0⟩

/-- Every normal draw is `0.0`, except call 26, the `offy` draw of pixel `(0, 2)` in stage 1
of a 4-wide image, which is `-1.5`. -/
def lateDraws (k : Nat) : Dec := if k = 26 then ⟨-15, 1⟩ else ⟨0, 0⟩

/-- Every normal draw is `-1.233758`. -/
def steadyDraws (_ : Nat) : Dec := ⟨-1233758, 6⟩

/-- Every normal draw is `0.0`. -/
def zeroDraws (_ : Nat) : Dec := ⟨0, 0⟩

/-- The flags `stillParams` with mean aberration `1`: `-lr 0 -lg 0 -lb 0 -meanabber 1`. -/
def shiftParams : Params Dec :=
  ⟨⟨7, 0⟩, 10, ⟨30, 0⟩, ⟨1, 1⟩, ⟨5, 3⟩, ⟨0, 0⟩, ⟨0, 0⟩, ⟨0, 0⟩, ⟨10, 0⟩, 37, 1, ⟨10, 0⟩⟩

/-- A tightly packed 2x2 image with four different pixels. -/
def sample2x2 : List Nat :=
  [200, 10, 30, 255, 40, 90, 120, 250, 7, 60, 180, 128, 99, 240, 5, 64]

/-- A scripted generator like `scripted`, except that `Intn` always returns `0`: a new
distorted block begins at every pixel of stage 1. -/
def scriptedBlock (f : Nat → Dec) : RandSource Dec Nat :=
  ⟨fun seed => seed.toNat, fun g _ => (0, g + 1), fun g => (f g, g + 1)⟩

/-! ## Arithmetic facts used for `brighten` -/

/-- The quotient `c*add/255` never exceeds `c` when `add` is a byte. -/
theorem mul_div_255_le (c add : Nat) (ha : add ≤ 255) : c * add / 255 ≤ c := by
  have h : c * add ≤ c * 255 := Nat.mul_le_mul_left c ha
  omega

/-- The quotient `c*add/255` never exceeds `add` when `c` is a byte. -/
theorem mul_div_255_le_right (c add : Nat) (hc : c ≤ 255) : c * add / 255 ≤ add := by
  have h : c * add ≤ 255 * add := Nat.mul_le_mul_right add hc
  omega

/-- Lower bound on the quotient: `c + add - 255 ≤ c*add/255` for bytes. -/
theorem add_le_mul_div_255 (c add : Nat) (hc : c ≤ 255) (ha : add ≤ 255) :
    c + add ≤ 255 + c * add / 255 := by
  have key : (255 : Int) * (c + add) ≤ 255 * 255 + c * add := by
    have hu : (0 : Int) ≤ 255 - c := by omega
    have hv : (0 : Int) ≤ 255 - add := by omega
    nlinarith [mul_nonneg hu hv]
  have key' : 255 * (c + add) ≤ 255 * 255 + c * add := by exact_mod_cast key
  omega

/-- On bytes the `uint32` computation of `brighten` neither wraps nor loses bits. -/
theorem brighten_eq (c add : Nat) (hc : c ≤ 255) (ha : add ≤ 255) :
    brighten c add = c - c * add / 255 + add := by
  have h1 := mul_div_255_le c add ha
  have h2 := add_le_mul_div_255 c add hc ha
  have h3 : c * add ≤ 255 * 255 := Nat.mul_le_mul hc ha
  unfold brighten toUint8 u32add u32sub u32mul u32
  have e1 : c % 4294967296 = c := Nat.mod_eq_of_lt (by omega)
  have e2 : add % 4294967296 = add := Nat.mod_eq_of_lt (by omega)
  simp only [e1, e2]
  have e3 : c * add % 4294967296 = c * add := Nat.mod_eq_of_lt (by omega)
  rw [e3]
  generalize c * add / 255 = q at h1 h2
  omega

/-! ## Buffer lemmas -/

/-- Reading a list after one `set`. -/
theorem getD_set_zero (l : List Nat) (n k v : Nat) (hn : n < l.length) :
    (l.set n v).getD k 0 = if k = n then v else l.getD k 0 := by
  simp only [List.getD_eq_getElem?_getD, List.getElem?_set]
  by_cases h : n = k
  · subst h
    simp [hn]
  · have h' : ¬ k = n := fun e => h e.symm
    simp [h, h']

/-- Inside the buffer `writePixel` succeeds. -/
theorem writePixel_some (pix : List Nat) (n : Nat) (px : RGBA) (hn : n + 4 ≤ pix.length) :
    writePixel pix (n : Int) px =
      some ((((pix.set n px.r).set (n + 1) px.g).set (n + 2) px.b).set (n + 3) px.a) := by
  unfold writePixel
  have h : (0 : Int) ≤ (n : Int) ∧ (n : Int) + 4 ≤ (pix.length : Int) := by omega
  simp [h]

/-- A successful `writePixel` keeps the length of the buffer. -/
theorem writePixel_length (pix pix' : List Nat) (i : Int) (px : RGBA)
    (h : writePixel pix i px = some pix') : pix'.length = pix.length := by
  unfold writePixel at h
  split_ifs at h
  simp at h
  subst h
  simp

/-- The bytes of the buffer after a successful `writePixel`. -/
theorem writePixel_getD (pix pix' : List Nat) (n : Nat) (px : RGBA)
    (h : writePixel pix (n : Int) px = some pix') (k : Nat) :
    pix'.getD k 0 =
      if k = n + 3 then px.a else if k = n + 2 then px.b else if k = n + 1 then px.g
      else if k = n then px.r else pix.getD k 0 := by
  have hb : n + 4 ≤ pix.length := by
    unfold writePixel at h
    split_ifs at h with hc
    omega
  rw [writePixel_some pix n px hb] at h
  simp only [Option.some.injEq] at h
  subst h
  rw [getD_set_zero _ _ _ _ (by simp; omega), getD_set_zero _ _ _ _ (by simp; omega),
    getD_set_zero _ _ _ _ (by simp; omega), getD_set_zero _ _ _ _ (by omega)]

/-- Inside the buffer `readPixel` returns the four bytes at the index. -/
theorem readPixel_some (pix : List Nat) (n : Nat) (hn : n + 4 ≤ pix.length) :
    readPixel pix (n : Int) = some (pixelAt pix n) := by
  unfold readPixel pixelAt
  have h : (0 : Int) ≤ (n : Int) ∧ (n : Int) + 4 ≤ (pix.length : Int) := by omega
  simp only [h, and_self, if_true, Int.toNat_ofNat]

/-- Inside the buffer `readByte` returns the byte at the index. -/
theorem readByte_some (pix : List Nat) (n : Nat) (hn : n < pix.length) :
    readByte pix (n : Int) = some (pix.getD n 0) := by
  unfold readByte
  have h : (0 : Int) ≤ (n : Int) ∧ (n : Int) < (pix.length : Int) := by omega
  simp only [h, and_self, if_true, Int.toNat_ofNat]

/-- Writing a pixel at an aligned position replaces that pixel and no other. -/
theorem pixelAt_writePixel (pix pix' : List Nat) (k : Nat) (px : RGBA)
    (h : writePixel pix ((4 * k : Nat) : Int) px = some pix') (j : Nat) :
    pixelAt pix' (4 * j) = if j = k then px else pixelAt pix (4 * j) := by
  unfold pixelAt
  rw [writePixel_getD pix pix' (4 * k) px h, writePixel_getD pix pix' (4 * k) px h,
    writePixel_getD pix pix' (4 * k) px h, writePixel_getD pix pix' (4 * k) px h]
  by_cases hjk : j = k
  · subst hjk
    have e1 : ¬ (4 * j = 4 * j + 3) := by omega
    have e2 : ¬ (4 * j = 4 * j + 2) := by omega
    have e3 : ¬ (4 * j = 4 * j + 1) := by omega
    have e4 : ¬ (4 * j + 1 = 4 * j + 3) := by omega
    have e5 : ¬ (4 * j + 1 = 4 * j + 2) := by omega
    have e6 : ¬ (4 * j + 2 = 4 * j + 3) := by omega
    simp [e1, e2, e3, e4, e5, e6]
  · have f (c d : Nat) (hc : c < 4) (hd : d < 4) : ¬ (4 * j + c = 4 * k + d) := by omega
    have g (d : Nat) (hd : d < 4) : ¬ (4 * j = 4 * k + d) := by omega
    have g0 : ¬ (4 * j = 4 * k) := by omega
    have f0 (c : Nat) (hc : c < 4) : ¬ (4 * j + c = 4 * k) := by omega
    simp [hjk, f 1 3, f 1 2, f 1 1, f 2 3, f 2 2, f 2 1, f 3 3, f 3 2, f 3 1, g 3, g 2, g 1, g0,
      f0 1, f0 2, f0 3]

/-- Writing back the pixel that is already stored leaves the buffer unchanged. -/
theorem writePixel_self (pix : List Nat) (n : Nat) (hn : n + 4 ≤ pix.length) :
    writePixel pix (n : Int) (pixelAt pix n) = some pix := by
  rw [writePixel_some pix n _ hn]
  congr 1
  apply List.ext_getElem?
  intro k
  have key (l : List Nat) (m : Nat) (hm : m < l.length) : l.set m (l.getD m 0) = l := by
    apply List.ext_getElem?
    intro i
    rw [List.getElem?_set]
    by_cases hmi : m = i
    · subst hmi
      simp [hm]
    · simp [hmi]
  unfold pixelAt
  simp only
  rw [key pix n (by omega)]
  rw [key pix (n + 1) (by omega)]
  rw [key pix (n + 2) (by omega)]
  rw [key pix (n + 3) (by omega)]

/-! ## Lemmas on coordinates -/

/-- Every pixel visited by the loops lies in the image. -/
theorem scanOrder_bound (w h : Nat) (c : Nat × Nat) (hc : c ∈ scanOrder w h) :
    c.1 < w ∧ c.2 < h := by
  unfold scanOrder at hc
  simp only [List.mem_flatMap, List.mem_range, List.mem_map] at hc
  obtain ⟨y, hy, x, hx, rfl⟩ := hc
  exact ⟨hx, hy⟩

/-- The loops visit every pixel of the image. -/
theorem scanOrder_mem (w h x y : Nat) (hx : x < w) (hy : y < h) : (x, y) ∈ scanOrder w h := by
  unfold scanOrder
  simp only [List.mem_flatMap, List.mem_range, List.mem_map]
  exact ⟨y, hy, x, hx, rfl⟩

/-- The byte index `Stride*y + 4*x` of a tightly packed buffer. -/
theorem index_cast (w x y : Nat) :
    ((4 * w : Nat) : Int) * (y : Int) + 4 * (x : Int) = ((4 * (w * y + x) : Nat) : Int) := by
  push_cast
  ring

/-- A pixel of the image lies inside a tightly packed buffer. -/
theorem index_bound (w h x y : Nat) (hx : x < w) (hy : y < h) :
    4 * (w * y + x) + 4 ≤ 4 * w * h := by
  have h1 : w * y + w ≤ w * h := by
    have : w * (y + 1) ≤ w * h := Nat.mul_le_mul_left w hy
    rw [Nat.mul_add, Nat.mul_one] at this
    exact this
  have h2 : 4 * w * h = 4 * (w * h) := Nat.mul_assoc 4 w h
  omega

/-- In its range `wrap` returns a coordinate of the image. -/
theorem wrap_toNat (x : Int) (b : Nat) (hx : inWrapRange x b = true) :
    ∃ n : Nat, n < b ∧ wrap x b = (n : Int) := by
  unfold inWrapRange at hx
  simp only [Bool.and_eq_true, decide_eq_true_eq] at hx
  refine ⟨(wrap x b).toNat, ?_, ?_⟩
  · unfold wrap
    split_ifs <;> omega
  · have : 0 ≤ wrap x b := by
      unfold wrap
      split_ifs <;> omega
    omega

/-! ## Stage 1 under the caller obligation -/

/-- A source coordinate of the image lies inside a buffer of stride at least `4*w`. -/
theorem src_index_bound (stride w h sx sy : Nat) (hstride : 4 * w ≤ stride) (hx : sx < w)
    (hy : sy < h) : stride * sy + 4 * sx + 4 ≤ stride * h := by
  have h1 : stride * (sy + 1) ≤ stride * h := Nat.mul_le_mul_left stride hy
  rw [Nat.mul_add, Nat.mul_one] at h1
  omega

/-- With both coordinates in the range of `wrap`, the copy of stage 1 succeeds: it reads the
source pixel at the wrapped position and stores it at `(x, y)`. -/
theorem stage1Copy_spec (stride w h : Nat) (src dst : List Nat) (x y : Nat) (offx offy : Int)
    (hstride : 4 * w ≤ stride) (hsrc : stride * h ≤ src.length) (hdst : dst.length = 4 * w * h)
    (hx : x < w) (hy : y < h) (hox : inWrapRange (x + offx) w = true)
    (hoy : inWrapRange (y + offy) h = true) :
    ∃ sx sy dst', sx < w ∧ sy < h ∧ wrap (x + offx) w = (sx : Int) ∧
      wrap (y + offy) h = (sy : Int) ∧
      stage1Copy stride w h src dst x y offx offy = some dst' ∧
      writePixel dst ((4 * (w * y + x) : Nat) : Int) (pixelAt src (stride * sy + 4 * sx)) =
        some dst' := by
  obtain ⟨sx, hsx, ex⟩ := wrap_toNat _ w hox
  obtain ⟨sy, hsy, ey⟩ := wrap_toNat _ h hoy
  have hb := src_index_bound stride w h sx sy hstride hsx hsy
  have hd := index_bound w h x y hx hy
  have hw := writePixel_some dst (4 * (w * y + x)) (pixelAt src (stride * sy + 4 * sx))
    (by omega)
  refine ⟨sx, sy, _, hsx, hsy, ex, ey, ?_, hw⟩
  unfold stage1Copy
  simp only [ex, ey]
  have e : (stride : Int) * (sy : Int) + 4 * (sx : Int) = ((stride * sy + 4 * sx : Nat) : Int) := by
    push_cast
    ring
  rw [e, readPixel_some src _ (by omega), index_cast]
  exact hw

/-- Stage 1 under the caller obligation: the loop runs to its end, keeps the length of the
destination buffer, and every pixel that is visited holds a pixel of the source image. -/
theorem stage1_loop {F G : Type} (fo : FloatOps F) (rs : RandSource F G) (p : Params F)
    (stride w h : Nat) (src : List Nat) (Q : RGBA → Prop)
    (hbh : 0 < int64 (p.bheight * w)) (hstride : 4 * w ≤ stride)
    (hsrc : stride * h ≤ src.length)
    (hQ : ∀ sx sy, sx < w → sy < h → Q (pixelAt src (stride * sy + 4 * sx))) :
    ∀ (cs : List (Nat × Nat)) (st : Stage1State F G) (dst : List Nat),
      (∀ c ∈ cs, c.1 < w ∧ c.2 < h) → dst.length = 4 * w * h →
      stage1InRange fo rs p w h cs st = true →
      ∃ s', forPixels (stage1Pixel fo rs p stride w h src) cs (st, dst) = some s' ∧
        s'.2.length = 4 * w * h ∧
        ∀ k, (Q (pixelAt dst (4 * k)) ∨ ∃ c ∈ cs, k = w * c.2 + c.1) →
          Q (pixelAt s'.2 (4 * k)) := by
  intro cs
  induction cs with
  | nil =>
    intro st dst _ hlen _
    refine ⟨(st, dst), rfl, hlen, ?_⟩
    intro k hk
    rcases hk with hk | ⟨c, hc, _⟩
    · exact hk
    · simp at hc
  | cons c cs ih =>
    intro st dst hgrid hlen hin
    have hc := hgrid c (List.mem_cons_self c cs)
    have hdraw : ∃ d, stage1Draw fo rs p w st c.2 = some d := by
      unfold stage1Draw stage1Block randIntn
      have : ¬ (int64 (p.bheight * (w : Int)) ≤ 0) := by omega
      simp only [this, if_false]
      split_ifs <;> exact ⟨_, rfl⟩
    obtain ⟨⟨off, st1⟩, hd⟩ := hdraw
    simp only [stage1InRange, hd, Bool.and_eq_true] at hin
    obtain ⟨⟨hox, hoy⟩, hrest⟩ := hin
    obtain ⟨sx, sy, dst1, hsx, hsy, _, _, hcopy, hwrite⟩ :=
      stage1Copy_spec stride w h src dst c.1 c.2 off.1 off.2 hstride hsrc hlen hc.1 hc.2 hox hoy
    have hlen1 : dst1.length = 4 * w * h := by
      rw [writePixel_length dst dst1 _ _ hwrite, hlen]
    obtain ⟨s', hrun, hl', hq'⟩ := ih st1 dst1
      (fun c' hc' => hgrid c' (List.mem_cons_of_mem c hc')) hlen1 hrest
    refine ⟨s', ?_, hl', ?_⟩
    · simp only [forPixels, stage1Pixel, hd, hcopy]
      exact hrun
    · intro k hk
      apply hq'
      have hpix := pixelAt_writePixel dst dst1 (w * c.2 + c.1) _ hwrite k
      rcases hk with hk | ⟨c', hc', hkc⟩
      · left
        rw [hpix]
        split_ifs
        · exact hQ sx sy hsx hsy
        · exact hk
      · rcases List.mem_cons.1 hc' with rfl | hmem
        · left
          rw [hpix, if_pos hkc]
          exact hQ sx sy hsx hsy
        · right
          exact ⟨c', hmem, hkc⟩

/-! ## Stages 2 and 3 under the caller obligation -/

/-- The four byte reads of stages 2 and 3 inside a tightly packed buffer: red and alpha of
pixel `i`, green of pixel `j`, blue of pixel `l`. -/
theorem readByte_channels (w h : Nat) (pix : List Nat) (hlen : pix.length = 4 * w * h)
    (y x : Nat) (hx : x < w) (hy : y < h) :
    readByte pix (((4 * w : Nat) : Int) * (y : Int) + 4 * (x : Int)) =
        some (pixelAt pix (4 * (w * y + x))).r ∧
      readByte pix (((4 * w : Nat) : Int) * (y : Int) + 4 * (x : Int) + 1) =
        some (pixelAt pix (4 * (w * y + x))).g ∧
      readByte pix (((4 * w : Nat) : Int) * (y : Int) + 4 * (x : Int) + 2) =
        some (pixelAt pix (4 * (w * y + x))).b ∧
      readByte pix (((4 * w : Nat) : Int) * (y : Int) + 4 * (x : Int) + 3) =
        some (pixelAt pix (4 * (w * y + x))).a := by
  have hb := index_bound w h x y hx hy
  rw [index_cast]
  have e1 : ((4 * (w * y + x) : Nat) : Int) + 1 = ((4 * (w * y + x) + 1 : Nat) : Int) := by
    push_cast
    ring
  have e2 : ((4 * (w * y + x) : Nat) : Int) + 2 = ((4 * (w * y + x) + 2 : Nat) : Int) := by
    push_cast
    ring
  have e3 : ((4 * (w * y + x) : Nat) : Int) + 3 = ((4 * (w * y + x) + 3 : Nat) : Int) := by
    push_cast
    ring
  rw [e1, e2, e3, readByte_some pix _ (by omega), readByte_some pix _ (by omega),
    readByte_some pix _ (by omega), readByte_some pix _ (by omega)]
  exact ⟨rfl, rfl, rfl, rfl⟩

/-- A pixel of the image has a pixel number below `w*h`. -/
theorem pixel_number_bound (w h x y : Nat) (hx : x < w) (hy : y < h) : w * y + x < w * h := by
  have hb := index_bound w h x y hx hy
  have h2 : 4 * w * h = 4 * (w * h) := Nat.mul_assoc 4 w h
  omega

/-- With the three coordinates in the range of `wrap`, the copy of stage 2 succeeds: red and
alpha come from pixel `rx`, green from pixel `gx`, blue from pixel `bx` of row `y`. -/
theorem stage2Copy_spec (w h add : Nat) (src dst : List Nat) (x y : Nat) (off : Stage2Off)
    (hsrc : src.length = 4 * w * h) (hdst : dst.length = 4 * w * h)
    (hx : x < w) (hy : y < h) (hr : inWrapRange (x + off.red) w = true)
    (hg : inWrapRange (x + off.green) w = true) (hb : inWrapRange (x + off.blue) w = true) :
    ∃ rx gx bx dst', rx < w ∧ gx < w ∧ bx < w ∧ wrap (x + off.red) w = (rx : Int) ∧
      wrap (x + off.green) w = (gx : Int) ∧ wrap (x + off.blue) w = (bx : Int) ∧
      stage2Copy w add src dst x y off = some dst' ∧
      writePixel dst ((4 * (w * y + x) : Nat) : Int)
        ⟨brighten (pixelAt src (4 * (w * y + rx))).r add,
          brighten (pixelAt src (4 * (w * y + gx))).g add,
          brighten (pixelAt src (4 * (w * y + bx))).b add,
          (pixelAt src (4 * (w * y + rx))).a⟩ = some dst' := by
  obtain ⟨rx, hrx, er⟩ := wrap_toNat _ w hr
  obtain ⟨gx, hgx, eg⟩ := wrap_toNat _ w hg
  obtain ⟨bx, hbx, eb⟩ := wrap_toNat _ w hb
  have hd := index_bound w h x y hx hy
  have hw := writePixel_some dst (4 * (w * y + x))
    ⟨brighten (pixelAt src (4 * (w * y + rx))).r add,
      brighten (pixelAt src (4 * (w * y + gx))).g add,
      brighten (pixelAt src (4 * (w * y + bx))).b add,
      (pixelAt src (4 * (w * y + rx))).a⟩ (by omega)
  refine ⟨rx, gx, bx, _, hrx, hgx, hbx, er, eg, eb, ?_, hw⟩
  unfold stage2Copy
  simp only [er, eg, eb]
  rw [(readByte_channels w h src hsrc y rx hrx hy).1,
    (readByte_channels w h src hsrc y rx hrx hy).2.2.2,
    (readByte_channels w h src hsrc y gx hgx hy).2.1,
    (readByte_channels w h src hsrc y bx hbx hy).2.2.1, index_cast]
  exact hw

/-- Stage 2 under the caller obligation: the loop runs to its end, keeps the length of the
destination buffer, and every pixel that is visited is composed of brightened channels of
pixels of the stage-1 buffer. -/
theorem stage2_loop {F G : Type} (fo : FloatOps F) (rs : RandSource F G) (p : Params F)
    (w h add : Nat) (src : List Nat) (Q1 Q2 : RGBA → Prop) (hsrc : src.length = 4 * w * h)
    (hQ1 : ∀ k, k < w * h → Q1 (pixelAt src (4 * k)))
    (hQ : ∀ p1 p2 p3, Q1 p1 → Q1 p2 → Q1 p3 →
      Q2 ⟨brighten p1.r add, brighten p2.g add, brighten p3.b add, p1.a⟩) :
    ∀ (cs : List (Nat × Nat)) (st : Stage2State F G) (dst : List Nat),
      (∀ c ∈ cs, c.1 < w ∧ c.2 < h) → dst.length = 4 * w * h →
      stage2InRange fo rs p w cs st = true →
      ∃ s', forPixels (stage2Pixel fo rs p w add src) cs (st, dst) = some s' ∧
        s'.2.length = 4 * w * h ∧
        ∀ k, (Q2 (pixelAt dst (4 * k)) ∨ ∃ c ∈ cs, k = w * c.2 + c.1) →
          Q2 (pixelAt s'.2 (4 * k)) := by
  intro cs
  induction cs with
  | nil =>
    intro st dst _ hlen _
    refine ⟨(st, dst), rfl, hlen, ?_⟩
    intro k hk
    rcases hk with hk | ⟨c, hc, _⟩
    · exact hk
    · simp at hc
  | cons c cs ih =>
    intro st dst hgrid hlen hin
    have hc := hgrid c (List.mem_cons_self c cs)
    simp only [stage2InRange, Bool.and_eq_true] at hin
    obtain ⟨⟨⟨hr, hg⟩, hb⟩, hrest⟩ := hin
    obtain ⟨rx, gx, bx, dst1, hrx, hgx, hbx, _, _, _, hcopy, hwrite⟩ :=
      stage2Copy_spec w h add src dst c.1 c.2 (stage2Draw fo rs p st).1 hsrc hlen hc.1 hc.2
        hr hg hb
    have hlen1 : dst1.length = 4 * w * h := by
      rw [writePixel_length dst dst1 _ _ hwrite, hlen]
    obtain ⟨s', hrun, hl', hq'⟩ := ih (stage2Draw fo rs p st).2 dst1
      (fun c' hc' => hgrid c' (List.mem_cons_of_mem c hc')) hlen1 hrest
    have hnew : Q2 ⟨brighten (pixelAt src (4 * (w * c.2 + rx))).r add,
        brighten (pixelAt src (4 * (w * c.2 + gx))).g add,
        brighten (pixelAt src (4 * (w * c.2 + bx))).b add,
        (pixelAt src (4 * (w * c.2 + rx))).a⟩ :=
      hQ _ _ _ (hQ1 _ (pixel_number_bound w h rx c.2 hrx hc.2))
        (hQ1 _ (pixel_number_bound w h gx c.2 hgx hc.2))
        (hQ1 _ (pixel_number_bound w h bx c.2 hbx hc.2))
    refine ⟨s', ?_, hl', ?_⟩
    · simp only [forPixels, stage2Pixel, hcopy]
      exact hrun
    · intro k hk
      apply hq'
      have hpix := pixelAt_writePixel dst dst1 (w * c.2 + c.1) _ hwrite k
      rcases hk with hk | ⟨c', hc', hkc⟩
      · left
        rw [hpix]
        split_ifs
        · exact hnew
        · exact hk
      · rcases List.mem_cons.1 hc' with rfl | hmem
        · left
          rw [hpix, if_pos hkc]
          exact hnew
        · right
          exact ⟨c', hmem, hkc⟩

/-- With both coordinates in the range of `wrap`, the copy of stage 3 succeeds: red and
alpha come from pixel `rx`, green from the pixel itself, blue from pixel `bx`. -/
theorem stage3Copy_spec (w h : Nat) (pix : List Nat) (x y : Nat) (offx : Int)
    (hlen : pix.length = 4 * w * h) (hx : x < w) (hy : y < h)
    (hr : inWrapRange (x + offx) w = true) (hb : inWrapRange (x - offx) w = true) :
    ∃ rx bx pix', rx < w ∧ bx < w ∧ wrap (x + offx) w = (rx : Int) ∧
      wrap (x - offx) w = (bx : Int) ∧
      stage3Copy w pix x y offx = some pix' ∧
      writePixel pix ((4 * (w * y + x) : Nat) : Int)
        ⟨(pixelAt pix (4 * (w * y + rx))).r, (pixelAt pix (4 * (w * y + x))).g,
          (pixelAt pix (4 * (w * y + bx))).b, (pixelAt pix (4 * (w * y + rx))).a⟩ =
        some pix' := by
  obtain ⟨rx, hrx, er⟩ := wrap_toNat _ w hr
  obtain ⟨bx, hbx, eb⟩ := wrap_toNat _ w hb
  have hd := index_bound w h x y hx hy
  have hw := writePixel_some pix (4 * (w * y + x))
    ⟨(pixelAt pix (4 * (w * y + rx))).r, (pixelAt pix (4 * (w * y + x))).g,
      (pixelAt pix (4 * (w * y + bx))).b, (pixelAt pix (4 * (w * y + rx))).a⟩ (by omega)
  refine ⟨rx, bx, _, hrx, hbx, er, eb, ?_, hw⟩
  unfold stage3Copy
  simp only [er, eb]
  rw [(readByte_channels w h pix hlen y rx hrx hy).1,
    (readByte_channels w h pix hlen y rx hrx hy).2.2.2,
    (readByte_channels w h pix hlen y x hx hy).2.1,
    (readByte_channels w h pix hlen y bx hbx hy).2.2.1, index_cast]
  exact hw

/-- Stage 3 under the caller obligation: the loop runs to its end, keeps the length of the
buffer, and preserves every property of pixels that is closed under recombining the channels
of three pixels. -/
theorem stage3_loop {F G : Type} (fo : FloatOps F) (rs : RandSource F G) (p : Params F)
    (w h : Nat) (Q : RGBA → Prop)
    (hQ : ∀ p1 p2 p3, Q p1 → Q p2 → Q p3 → Q ⟨p1.r, p2.g, p3.b, p1.a⟩) :
    ∀ (cs : List (Nat × Nat)) (r : Rng G) (pix : List Nat),
      (∀ c ∈ cs, c.1 < w ∧ c.2 < h) → pix.length = 4 * w * h →
      (∀ k, k < w * h → Q (pixelAt pix (4 * k))) →
      stage3InRange fo rs p w cs r = true →
      ∃ s', forPixels (stage3Pixel fo rs p w) cs (r, pix) = some s' ∧
        s'.2.length = 4 * w * h ∧ ∀ k, k < w * h → Q (pixelAt s'.2 (4 * k)) := by
  intro cs
  induction cs with
  | nil =>
    intro r pix _ hlen hall _
    exact ⟨(r, pix), rfl, hlen, hall⟩
  | cons c cs ih =>
    intro r pix hgrid hlen hall hin
    have hc := hgrid c (List.mem_cons_self c cs)
    simp only [stage3InRange, Bool.and_eq_true] at hin
    obtain ⟨⟨hr, hb⟩, hrest⟩ := hin
    obtain ⟨rx, bx, pix1, hrx, hbx, _, _, hcopy, hwrite⟩ :=
      stage3Copy_spec w h pix c.1 c.2 (stage3Draw fo rs p r).1 hlen hc.1 hc.2 hr hb
    have hlen1 : pix1.length = 4 * w * h := by
      rw [writePixel_length pix pix1 _ _ hwrite, hlen]
    have hall1 : ∀ k, k < w * h → Q (pixelAt pix1 (4 * k)) := by
      intro k hk
      rw [pixelAt_writePixel pix pix1 (w * c.2 + c.1) _ hwrite k]
      split_ifs
      · exact hQ _ _ _ (hall _ (pixel_number_bound w h rx c.2 hrx hc.2))
          (hall _ (pixel_number_bound w h c.1 c.2 hc.1 hc.2))
          (hall _ (pixel_number_bound w h bx c.2 hbx hc.2))
      · exact hall k hk
    obtain ⟨s', hrun, hl', hq'⟩ := ih (stage3Draw fo rs p r).2 pix1
      (fun c' hc' => hgrid c' (List.mem_cons_of_mem c hc')) hlen1 hall1 hrest
    refine ⟨s', ?_, hl', hq'⟩
    simp only [forPixels, stage3Pixel, hcopy]
    exact hrun

/-! ## The pipeline under the caller obligation -/

/-- Every pixel number below `w*h` is visited by the loops. -/
theorem scanOrder_covers (w h k : Nat) (hk : k < w * h) :
    ∃ c ∈ scanOrder w h, k = w * c.2 + c.1 := by
  have hw : 0 < w := by
    rcases Nat.eq_zero_or_pos w with h0 | h0
    · subst h0
      simp at hk
    · exact h0
  refine ⟨(k % w, k / w), scanOrder_mem w h _ _ (Nat.mod_lt k hw) ?_, ?_⟩
  · exact Nat.div_lt_of_lt_mul hk
  · exact (Nat.div_add_mod k w).symm

/-- The whole pipeline under the caller obligation: it runs to its end, the output buffer
has `4*w*h` bytes, and a property `Q0` of all source pixels becomes the property `Q2` of all
output pixels when `Q2` holds for brightened recombinations of `Q0` pixels and is closed
under recombination. -/
theorem corrupt_under_obligation {F G : Type} (fo : FloatOps F) (rs : RandSource F G)
    (p : Params F) (stride w h : Nat) (src : List Nat) (r : Rng G) (Q0 Q2 : RGBA → Prop)
    (hbh : 0 < int64 (p.bheight * w)) (hstride : 4 * w ≤ stride)
    (hsrc : stride * h ≤ src.length)
    (hQ0 : ∀ sx sy, sx < w → sy < h → Q0 (pixelAt src (stride * sy + 4 * sx)))
    (hQ : ∀ p1 p2 p3, Q0 p1 → Q0 p2 → Q0 p3 →
      Q2 ⟨brighten p1.r (addByte p.add), brighten p2.g (addByte p.add),
        brighten p3.b (addByte p.add), p1.a⟩)
    (hQ2 : ∀ p1 p2 p3, Q2 p1 → Q2 p2 → Q2 p3 → Q2 ⟨p1.r, p2.g, p3.b, p1.a⟩)
    (hob : wrapObligation fo rs p stride w h src r = true) :
    ∃ out, corrupt fo rs p stride w h src r = some out ∧ out.2.length = 4 * w * h ∧
      ∀ k, k < w * h → Q2 (pixelAt out.2 (4 * k)) := by
  unfold wrapObligation at hob
  rw [Bool.and_eq_true] at hob
  obtain ⟨h1, hob⟩ := hob
  have hnew : (newNRGBA w h).length = 4 * w * h := by simp [newNRGBA]
  obtain ⟨s1, hs1, hl1, hq1⟩ := stage1_loop fo rs p stride w h src Q0 hbh hstride hsrc hQ0
    (scanOrder w h) ⟨r, 0, fo.zero, 0⟩ (newNRGBA w h) (scanOrder_bound w h) hnew h1
  have hs1' : stage1 fo rs p stride w h src r = some s1 := hs1
  rw [hs1'] at hob
  simp only [Bool.and_eq_true] at hob
  obtain ⟨h2, hob⟩ := hob
  have hall1 : ∀ k, k < w * h → Q0 (pixelAt s1.2 (4 * k)) :=
    fun k hk => hq1 k (Or.inr (scanOrder_covers w h k hk))
  obtain ⟨s2, hs2, hl2, hq2⟩ := stage2_loop fo rs p w h (addByte p.add) s1.2 Q0 Q2 hl1 hall1 hQ
    (scanOrder w h) ⟨s1.1.rng, p.lr, p.lg, p.lb⟩ (newNRGBA w h) (scanOrder_bound w h) hnew h2
  have hs2' : stage2 fo rs p w h s1.2 s1.1.rng = some s2 := hs2
  rw [hs2'] at hob
  have hall2 : ∀ k, k < w * h → Q2 (pixelAt s2.2 (4 * k)) :=
    fun k hk => hq2 k (Or.inr (scanOrder_covers w h k hk))
  obtain ⟨s3, hs3, hl3, hq3⟩ := stage3_loop fo rs p w h Q2 hQ2
    (scanOrder w h) s2.1.rng s2.2 (scanOrder_bound w h) hl2 hall2 hob
  refine ⟨s3, ?_, hl3, hq3⟩
  unfold corrupt
  rw [hs1']
  simp only
  rw [hs2']
  exact hs3

/-- On `[0, b)` the function `wrap` returns its argument. -/
theorem wrap_id_aux (x b : Int) (hlo : 0 ≤ x) (hhi : x < b) : wrap x b = x := by
  unfold wrap
  split_ifs <;> omega

/-- With aberration offset `0` the copy of stage 3 stores the pixel that is already there. -/
theorem stage3Copy_zero (w h : Nat) (pix : List Nat) (x y : Nat)
    (hlen : pix.length = 4 * w * h) (hx : x < w) (hy : y < h) :
    stage3Copy w pix x y 0 = some pix := by
  have hr : inWrapRange ((x : Int) + 0) w = true := by
    unfold inWrapRange
    simp only [Bool.and_eq_true, decide_eq_true_eq]
    omega
  have hb : inWrapRange ((x : Int) - 0) w = true := by
    unfold inWrapRange
    simp only [Bool.and_eq_true, decide_eq_true_eq]
    omega
  obtain ⟨rx, bx, pix', _, _, er, eb, hcopy, hwrite⟩ :=
    stage3Copy_spec w h pix x y 0 hlen hx hy hr hb
  have e1 : wrap ((x : Int) + 0) w = (x : Int) := wrap_id_aux _ _ (by omega) (by omega)
  have e2 : wrap ((x : Int) - 0) w = (x : Int) := by
    rw [Int.sub_zero]
    exact wrap_id_aux _ _ (by omega) (by omega)
  have erx : rx = x := by omega
  have ebx : bx = x := by omega
  rw [erx, ebx] at hwrite
  have hd := index_bound w h x y hx hy
  have hself := writePixel_self pix (4 * (w * y + x)) (by omega)
  have : pix' = pix := by
    have e : some pix' = some pix := by
      rw [← hwrite, ← hself]
    exact Option.some.inj e
  rw [hcopy, this]

/-- Stage 3 with every aberration offset equal to `0` returns the buffer it was given. -/
theorem stage3_zero_loop {F G : Type} (fo : FloatOps F) (rs : RandSource F G) (p : Params F)
    (w h : Nat) (hzero : ∀ r : Rng G, (stage3Draw fo rs p r).1 = 0) :
    ∀ (cs : List (Nat × Nat)) (r : Rng G) (pix : List Nat),
      (∀ c ∈ cs, c.1 < w ∧ c.2 < h) → pix.length = 4 * w * h →
      ∃ r', forPixels (stage3Pixel fo rs p w) cs (r, pix) = some (r', pix) := by
  intro cs
  induction cs with
  | nil =>
    intro r pix _ _
    exact ⟨r, rfl⟩
  | cons c cs ih =>
    intro r pix hgrid hlen
    have hc := hgrid c (List.mem_cons_self c cs)
    obtain ⟨r', hr'⟩ := ih (stage3Draw fo rs p r).2 pix
      (fun c' hc' => hgrid c' (List.mem_cons_of_mem c hc')) hlen
    refine ⟨r', ?_⟩
    simp only [forPixels, stage3Pixel, hzero r, stage3Copy_zero w h pix c.1 c.2 hlen hc.1 hc.2]
    exact hr'

/-! ## Claims about `wrap` and `brighten` -/

/-- C1: for every bound `b > 0` and every `x` with `-b ≤ x < 2*b`, the value `wrap x b`
lies in `[0, b)`. -/
theorem wrap_in_range (x b : Int) (_hb : 0 < b) (hlo : -b ≤ x) (hhi : x < 2 * b) :
    0 ≤ wrap x b ∧ wrap x b < b := by
  unfold wrap
  split_ifs <;> constructor <;> omega

/-- Witness for C1 at `x = -3`, `b = 4`. -/
theorem wrap_in_range_witness :
    (0 : Int) < 4 ∧ -(4 : Int) ≤ -3 ∧ (-3 : Int) < 2 * 4 ∧ 0 ≤ wrap (-3) 4 ∧ wrap (-3) 4 < 4 :=
  ⟨by decide, by decide, by decide, wrap_in_range (-3) 4 (by decide) (by decide) (by decide)⟩

/-- C2: `wrap` is the identity on the valid range: `wrap x b = x` whenever `0 ≤ x < b`. -/
theorem wrap_id (x b : Int) (hlo : 0 ≤ x) (hhi : x < b) : wrap x b = x := by
  unfold wrap
  split_ifs <;> omega

/-- Witness for C2 at `x = 2`, `b = 5`. -/
theorem wrap_id_witness : (0 : Int) ≤ 2 ∧ (2 : Int) < 5 ∧ wrap 2 5 = 2 :=
  ⟨by decide, by decide, wrap_id 2 5 (by decide) (by decide)⟩

/-- C5: for every channel value `c` in `0..255`, `brighten c 0 = c`. -/
theorem brighten_zero (c : Nat) (hc : c ≤ 255) : brighten c 0 = c := by
  rw [brighten_eq c 0 hc (by omega)]
  simp

/-- Witness for C5 at `c = 200`. -/
theorem brighten_zero_witness : 200 ≤ 255 ∧ brighten 200 0 = 200 :=
  ⟨by decide, brighten_zero 200 (by decide)⟩

/-- C6: for every channel value `c` in `0..255`, `brighten c 255 = 255`. -/
theorem brighten_full (c : Nat) (hc : c ≤ 255) : brighten c 255 = 255 := by
  rw [brighten_eq c 255 hc (by omega)]
  have : c * 255 / 255 = c := Nat.mul_div_cancel c (by omega)
  omega

/-- Witness for C6 at `c = 17`. -/
theorem brighten_full_witness : 17 ≤ 255 ∧ brighten 17 255 = 255 :=
  ⟨by decide, brighten_full 17 (by decide)⟩

/-- C7: `brighten` is non-decreasing in its `add` argument: for a byte `c` and bytes
`add1 ≤ add2`, `brighten c add1 ≤ brighten c add2` (results after narrowing to `uint8`). -/
theorem brighten_mono_add (c add1 add2 : Nat) (hc : c ≤ 255) (h12 : add1 ≤ add2)
    (h2 : add2 ≤ 255) : brighten c add1 ≤ brighten c add2 := by
  rw [brighten_eq c add1 hc (by omega), brighten_eq c add2 hc h2]
  have hq1 := mul_div_255_le c add1 (by omega)
  have hq2 := mul_div_255_le c add2 h2
  obtain ⟨d, rfl⟩ : ∃ d, add2 = add1 + d := ⟨add2 - add1, by omega⟩
  have hd : c * d ≤ 255 * d := Nat.mul_le_mul_right d hc
  have hmul : c * (add1 + d) = c * add1 + c * d := Nat.mul_add c add1 d
  rw [hmul] at hq2 ⊢
  generalize c * add1 = p at *
  generalize c * d = e at *
  omega

/-- Witness for C7 at `c = 100`, `add1 = 37`, `add2 = 38`. -/
theorem brighten_mono_add_witness :
    100 ≤ 255 ∧ 37 ≤ 38 ∧ 38 ≤ 255 ∧ brighten 100 37 ≤ brighten 100 38 :=
  ⟨by decide, by decide, by decide,
    brighten_mono_add 100 37 38 (by decide) (by decide) (by decide)⟩

/-- C8: `brighten` is computed safely in the wide type.  For bytes `c` and `add` the
`uint32` product is the exact product, the quotient `c*add/255` is at most `c` so that the
`uint32` subtraction does not wrap, the `uint32` sum is the exact sum, the exact integer
`c - c*add/255 + add` is at most 255, and `brighten c add` equals that exact integer (the
narrowing to `uint8` loses nothing). -/
theorem brighten_exact (c add : Nat) (hc : c ≤ 255) (ha : add ≤ 255) :
    u32mul c add = c * add ∧ c * add / 255 ≤ c ∧
      u32sub c (c * add / 255) = c - c * add / 255 ∧
      u32add (c - c * add / 255) add = c - c * add / 255 + add ∧
      c - c * add / 255 + add ≤ 255 ∧
      brighten c add = c - c * add / 255 + add := by
  have h1 := mul_div_255_le c add ha
  have h2 := add_le_mul_div_255 c add hc ha
  have h3 : c * add ≤ 255 * 255 := Nat.mul_le_mul hc ha
  refine ⟨?_, h1, ?_, ?_, by omega, brighten_eq c add hc ha⟩
  · unfold u32mul u32
    exact Nat.mod_eq_of_lt (by omega)
  · unfold u32sub u32
    generalize c * add / 255 = q at h1 h2
    omega
  · unfold u32add u32
    generalize c * add / 255 = q at h1 h2
    omega

/-- Witness for C8 at `c = 10`, `add = 37`. -/
theorem brighten_exact_witness :
    10 ≤ 255 ∧ 37 ≤ 255 ∧ u32mul 10 37 = 10 * 37 ∧ 10 * 37 / 255 ≤ 10 ∧
      u32sub 10 (10 * 37 / 255) = 10 - 10 * 37 / 255 ∧
      u32add (10 - 10 * 37 / 255) 37 = 10 - 10 * 37 / 255 + 37 ∧
      10 - 10 * 37 / 255 + 37 ≤ 255 ∧
      brighten 10 37 = 10 - 10 * 37 / 255 + 37 :=
  ⟨by decide, by decide, brighten_exact 10 37 (by decide) (by decide)⟩

/-! ## Claims about the pipeline -/

set_option maxRecDepth 100000

/-- C3: on the 4x4 image of colour `(10,20,30,255)` with the default flags the pipeline does
not complete for every sequence of draws, although the claim (and the comment of `wrap`,
which takes its argument to lie in `[-b, 2*b)`) says so: `main` hands `wrap` coordinates
outside that range and the slice expression panics.
With every normal draw `2.0` the first iteration of stage 1 computes
`offx = offy = int(2.0*7) = 14`, `wrap(14, 4) = 10`, and the source slice starts at byte
`16*10 + 4*10 = 200` of a 64-byte buffer.
With every draw `0.0` stage 1 completes; if only the `offy` draw of pixel `(0, 2)` is `-1.5`,
then `offy = int(-10.5) = -10`, `wrap(2 - 10, 4) = -4`, the source slice starts at a negative
byte index in whatever column, and stage 1 panics. -/
theorem uniform_4x4_panics :
    ((stage1Draw decOps (scripted twoDraws) defaultParams 4 ⟨⟨0, 0⟩, 0, decOps.zero, 0⟩ 0).map
        (fun d => d.1) = some (14, 14) ∧
      wrap (0 + 14) 4 = 10 ∧
      readPixel (solid 16 ⟨10, 20, 30, 255⟩) (16 * 10 + 4 * 10) = none ∧
      corrupt decOps (scripted twoDraws) defaultParams 16 4 4 (solid 16 ⟨10, 20, 30, 255⟩)
        ⟨0, 0⟩ = none) ∧
      ((stage1 decOps (scripted zeroDraws) defaultParams 16 4 4 (solid 16 ⟨10, 20, 30, 255⟩)
        ⟨0, 0⟩).isSome = true ∧
      Dec.toInt (Dec.mul ⟨-15, 1⟩ defaultParams.mag) = -10 ∧
      wrap (2 + -10) 4 = -4 ∧
      (∀ c : Nat, c < 4 →
        readPixel (solid 16 ⟨10, 20, 30, 255⟩) (16 * wrap (2 + -10) 4 + 4 * (c : Int)) = none) ∧
      (stage1 decOps (scripted lateDraws) defaultParams 16 4 4 (solid 16 ⟨10, 20, 30, 255⟩)
        ⟨0, 0⟩).isSome = false ∧
      corrupt decOps (scripted lateDraws) defaultParams 16 4 4 (solid 16 ⟨10, 20, 30, 255⟩)
        ⟨0, 0⟩ = none) := by
  decide

/-- Where `main` keeps every coordinate handed to `wrap` inside the range that the comment
of `wrap` assumes, the run on a 4x4 image of colour `(10,20,30,255)` with the integer flags
at their defaults (`bheight 10`, `add 37`, `meanabber 10`) completes and every output pixel
equals `(brighten 10 37, brighten 20 37, brighten 30 37, 255) = (46, 55, 63, 255)`. -/
theorem uniform_4x4_default {F G : Type} (fo : FloatOps F) (rs : RandSource F G)
    (p : Params F) (stride : Nat) (src : List Nat) (r : Rng G)
    (hbh : p.bheight = 10) (hadd : p.add = 37) (_hmean : p.meanabber = 10)
    (hstride : 16 ≤ stride) (hlen : stride * 4 ≤ src.length)
    (hsrc : ∀ x : Nat, x < 4 → ∀ y : Nat, y < 4 →
      readPixel src ((stride * y + 4 * x : Nat) : Int) = some ⟨10, 20, 30, 255⟩)
    (hob : wrapObligation fo rs p stride 4 4 src r = true) :
    ∃ out, corrupt fo rs p stride 4 4 src r = some out ∧ out.2.length = 64 ∧
      (∀ x : Nat, x < 4 → ∀ y : Nat, y < 4 →
        readPixel out.2 ((16 * y + 4 * x : Nat) : Int) =
          some ⟨brighten 10 37, brighten 20 37, brighten 30 37, 255⟩) ∧
      (⟨brighten 10 37, brighten 20 37, brighten 30 37, 255⟩ : RGBA) = ⟨46, 55, 63, 255⟩ := by
  have hQ0 : ∀ sx sy, sx < 4 → sy < 4 →
      pixelAt src (stride * sy + 4 * sx) = (⟨10, 20, 30, 255⟩ : RGBA) := by
    intro sx sy hx hy
    have hb := src_index_bound stride 4 4 sx sy (by omega) hx hy
    have := hsrc sx hx sy hy
    rw [readPixel_some src _ (by omega)] at this
    exact Option.some.inj this
  have hadd' : addByte p.add = 37 := by
    rw [hadd]
    rfl
  obtain ⟨out, hrun, hl, hq⟩ := corrupt_under_obligation fo rs p stride 4 4 src r
    (fun px => px = ⟨10, 20, 30, 255⟩)
    (fun px => px = ⟨brighten 10 37, brighten 20 37, brighten 30 37, 255⟩)
    (by rw [hbh]; decide) (by omega) hlen hQ0
    (by
      intro p1 p2 p3 h1 h2 h3
      subst h1 h2 h3
      rw [hadd'])
    (by
      intro p1 p2 p3 h1 h2 h3
      subst h1 h2 h3
      rfl)
    hob
  refine ⟨out, hrun, hl, ?_, by decide⟩
  intro x hx y hy
  have hb := index_bound 4 4 x y hx hy
  have e : 16 * y + 4 * x = 4 * (4 * y + x) := by omega
  rw [e, readPixel_some out.2 _ (by omega)]
  exact congrArg some (hq (4 * y + x) (by omega))

/-- An instance of `uniform_4x4_default`: the default flags, exact decimal arithmetic and
the scripted draws `calmDraws` on the tightly packed 4x4 image. -/
theorem uniform_4x4_default_witness :
    wrapObligation decOps (scripted calmDraws) defaultParams 16 4 4
        (solid 16 ⟨10, 20, 30, 255⟩) ⟨0, 0⟩ = true ∧
      ∃ out, corrupt decOps (scripted calmDraws) defaultParams 16 4 4
          (solid 16 ⟨10, 20, 30, 255⟩) ⟨0, 0⟩ = some out ∧ out.2.length = 64 ∧
        (∀ x : Nat, x < 4 → ∀ y : Nat, y < 4 →
          readPixel out.2 ((16 * y + 4 * x : Nat) : Int) =
            some ⟨brighten 10 37, brighten 20 37, brighten 30 37, 255⟩) ∧
        (⟨brighten 10 37, brighten 20 37, brighten 30 37, 255⟩ : RGBA) = ⟨46, 55, 63, 255⟩ :=
  ⟨by decide,
    uniform_4x4_default decOps (scripted calmDraws) defaultParams 16
      (solid 16 ⟨10, 20, 30, 255⟩) ⟨0, 0⟩ rfl rfl rfl (by decide) (by decide) (by decide)
      (by decide)⟩

/-- C4: on a 1x1 image the pipeline panics, although the claim (and the comment of `wrap`,
which takes its argument to lie in `[-b, 2*b)`) says that every coordinate comes back as
`0`: `wrap` makes one step of `±bound`, and `main` hands it coordinates outside `[-1, 2)`.
With the default flags and every normal draw `0.0` stage 1 completes, stage 2 starts with
`lr = -7`, passes `0 + int(lr) - offx = -7` to `wrap`, gets `-6` and reads byte `-24`.
With every normal draw `2.0` stage 1 computes `offx = offy = 14`, `wrap(14, 1) = 13`, and
the source slice starts at byte `4*13 + 4*13` of a 4-byte buffer.
With `offy = -3` in stage 1, `wrap(-3, 1) = -2` and the source slice starts at byte `-8`. -/
theorem one_by_one_panics :
    ((stage1 decOps (scripted zeroDraws) defaultParams 4 1 1 [10, 20, 30, 255] ⟨0, 0⟩).isSome =
        true ∧
      (stage2Draw decOps (scripted zeroDraws) defaultParams
        ⟨⟨3, 3⟩, defaultParams.lr, defaultParams.lg, defaultParams.lb⟩).1.red = -7 ∧
      wrap (0 + -7) 1 = -6 ∧
      readByte [10, 20, 30, 255] (4 * 0 + 4 * wrap (0 + -7) 1) = none ∧
      corrupt decOps (scripted zeroDraws) defaultParams 4 1 1 [10, 20, 30, 255] ⟨0, 0⟩ = none) ∧
      ((stage1Draw decOps (scripted twoDraws) defaultParams 1 ⟨⟨0, 0⟩, 0, decOps.zero, 0⟩ 0).map
        (fun d => d.1) = some (14, 14) ∧
      wrap (0 + 14) 1 = 13 ∧
      readPixel [10, 20, 30, 255] (4 * wrap (0 + 14) 1 + 4 * wrap (0 + 14) 1) = none ∧
      corrupt decOps (scripted twoDraws) defaultParams 4 1 1 [10, 20, 30, 255] ⟨0, 0⟩ = none) ∧
      (wrap (0 + -3) 1 = -2 ∧
      readPixel [10, 20, 30, 255] (4 * wrap (0 + -3) 1 + 4 * wrap (0 + 0) 1) = none) := by
  decide

/-- C9: stage 3 on a uniform image (every pixel equal to `px`) with aberration mean `0` and
every offset draw resolving to `0` completes and leaves the buffer unchanged, byte for byte.
(The proof does not use uniformity: with zero offsets every pixel is rewritten with its own
bytes.) -/
theorem stage3_uniform_zero_unchanged {F G : Type} (fo : FloatOps F) (rs : RandSource F G)
    (p : Params F) (w h : Nat) (pix : List Nat) (r : Rng G) (px : RGBA)
    (hlen : pix.length = 4 * w * h)
    (_huni : ∀ x : Nat, x < w → ∀ y : Nat, y < h →
      readPixel pix (((4 * w : Nat) : Int) * (y : Int) + 4 * (x : Int)) = some px)
    (hmean : p.meanabber = 0)
    (hdraw : ∀ g : G, fo.toInt (fo.mul (rs.NormFloat64 g).1 p.stdabber) = 0) :
    ∃ r', stage3 fo rs p w h pix r = some (r', pix) := by
  have hzero : ∀ r : Rng G, (stage3Draw fo rs p r).1 = 0 := by
    intro r
    unfold stage3Draw offset randNormFloat64
    simp only [hmean, hdraw]
    rfl
  exact stage3_zero_loop fo rs p w h hzero (scanOrder w h) r pix (scanOrder_bound w h) hlen

/-- Witness for C9: the 2x2 image of colour `(46,55,63,255)`, the flags `stillParams` and
draws that are all `0.0`. -/
theorem stage3_uniform_zero_unchanged_witness :
    (∀ x : Nat, x < 2 → ∀ y : Nat, y < 2 →
        readPixel (solid 4 ⟨46, 55, 63, 255⟩) (((4 * 2 : Nat) : Int) * (y : Int) + 4 * (x : Int)) =
          some ⟨46, 55, 63, 255⟩) ∧
      ∃ r', stage3 decOps (scripted zeroDraws) stillParams 2 2 (solid 4 ⟨46, 55, 63, 255⟩)
        ⟨0, 0⟩ = some (r', solid 4 ⟨46, 55, 63, 255⟩) :=
  ⟨by decide,
    stage3_uniform_zero_unchanged decOps (scripted zeroDraws) stillParams 2 2
      (solid 4 ⟨46, 55, 63, 255⟩) ⟨0, 0⟩ ⟨46, 55, 63, 255⟩ (by decide) (by decide) rfl
      (fun _ => rfl)⟩

/-- C10: the pipeline is deterministic.  For an explicit seed (any flag value other than
`-1`) the result of the program, that is the output bytes together with the generator state
and the number of draws consumed, does not depend on the clock: two runs with the same seed,
flags and input buffer agree, and both equal the three stages started from
`NewSource(seed)`. -/
theorem run_deterministic {F G : Type} (fo : FloatOps F) (rs : RandSource F G)
    (p : Params F) (seed now1 now2 : Int) (stride w h : Nat) (pix : List Nat)
    (hseed : seed ≠ -1) :
    run fo rs p seed now1 stride w h pix = run fo rs p seed now2 stride w h pix ∧
      run fo rs p seed now1 stride w h pix =
        corrupt fo rs p stride w h pix ⟨rs.NewSource seed, 0⟩ := by
  have key : ∀ now, seedRand rs seed now = ⟨rs.NewSource seed, 0⟩ := by
    intro now
    unfold seedRand
    rw [if_neg hseed]
    by_cases h1 : seed = 1
    · rw [if_neg (not_not.2 h1), h1]
    · rw [if_pos h1]
  unfold run
  rw [key now1, key now2]
  exact ⟨rfl, rfl⟩

/-- Witness for C10: seed `0`, clock readings `111` and `222`, the default flags on the 4x4
image. -/
theorem run_deterministic_witness :
    (0 : Int) ≠ -1 ∧
      run decOps (scripted calmDraws) defaultParams 0 111 16 4 4 (solid 16 ⟨10, 20, 30, 255⟩) =
        run decOps (scripted calmDraws) defaultParams 0 222 16 4 4
          (solid 16 ⟨10, 20, 30, 255⟩) ∧
      run decOps (scripted calmDraws) defaultParams 0 111 16 4 4 (solid 16 ⟨10, 20, 30, 255⟩) =
        corrupt decOps (scripted calmDraws) defaultParams 16 4 4 (solid 16 ⟨10, 20, 30, 255⟩)
          ⟨(scripted calmDraws).NewSource 0, 0⟩ :=
  ⟨by decide,
    run_deterministic decOps (scripted calmDraws) defaultParams 0 111 222 16 4 4
      (solid 16 ⟨10, 20, 30, 255⟩) (by decide)⟩

/-! ## Further claims about `wrap` and `brighten` -/

/-- C17: `brighten` is contrast-safe: for a byte `add` and bytes `c1 ≤ c2`, the results keep
the order, `brighten c1 add ≤ brighten c2 add`, and their difference is at most `c2 - c1`. -/
theorem brighten_contrast (c1 c2 add : Nat) (h12 : c1 ≤ c2) (hc : c2 ≤ 255) (ha : add ≤ 255) :
    brighten c1 add ≤ brighten c2 add ∧ brighten c2 add - brighten c1 add ≤ c2 - c1 := by
  rw [brighten_eq c1 add (by omega) ha, brighten_eq c2 add hc ha]
  have hq1 := mul_div_255_le c1 add ha
  have hq2 := mul_div_255_le c2 add ha
  obtain ⟨d, rfl⟩ : ∃ d, c2 = c1 + d := ⟨c2 - c1, by omega⟩
  have hd : d * add ≤ d * 255 := Nat.mul_le_mul_left d ha
  have hmul : (c1 + d) * add = c1 * add + d * add := Nat.add_mul c1 d add
  rw [hmul] at hq2 ⊢
  generalize c1 * add = u at *
  generalize d * add = v at *
  omega

/-- Witness for C17 at `c1 = 10`, `c2 = 200`, `add = 37`. -/
theorem brighten_contrast_witness :
    10 ≤ 200 ∧ 200 ≤ 255 ∧ 37 ≤ 255 ∧
      brighten 10 37 ≤ brighten 200 37 ∧ brighten 200 37 - brighten 10 37 ≤ 200 - 10 :=
  ⟨by decide, by decide, by decide,
    brighten_contrast 10 200 37 (by decide) (by decide) (by decide)⟩

/-- C19: the precondition of `wrap` is necessary as well as sufficient.  For `b > 0` and
every `x`: `wrap x b` lies in `[0, b)` exactly when `-b ≤ x < 2*b`; for `x < -b` the result
is negative, and for `x ≥ 2*b` the result is at least `b`. -/
theorem wrap_range_iff (x b : Int) (hb : 0 < b) :
    ((0 ≤ wrap x b ∧ wrap x b < b) ↔ (-b ≤ x ∧ x < 2 * b)) ∧
      (x < -b → wrap x b < 0) ∧ (2 * b ≤ x → b ≤ wrap x b) := by
  unfold wrap
  refine ⟨⟨?_, ?_⟩, ?_, ?_⟩
  · split_ifs <;> intro h <;> constructor <;> omega
  · split_ifs <;> intro h <;> constructor <;> omega
  · split_ifs <;> intro h <;> omega
  · split_ifs <;> intro h <;> omega

/-- Witness for C19 at `x = 9`, `b = 4`: outside the range, `wrap 9 4 = 5` is not below `4`. -/
theorem wrap_range_iff_witness :
    (0 : Int) < 4 ∧
      (((0 ≤ wrap 9 4 ∧ wrap 9 4 < 4) ↔ (-(4 : Int) ≤ 9 ∧ (9 : Int) < 2 * 4)) ∧
        ((9 : Int) < -4 → wrap 9 4 < 0) ∧ (2 * (4 : Int) ≤ 9 → 4 ≤ wrap 9 4)) :=
  ⟨by decide, wrap_range_iff 9 4 (by decide)⟩

/-- C20: `brighten` never darkens a channel: for bytes `c` and `add`,
`c ≤ brighten c add` and `add ≤ brighten c add`. -/
theorem brighten_ge (c add : Nat) (hc : c ≤ 255) (ha : add ≤ 255) :
    c ≤ brighten c add ∧ add ≤ brighten c add := by
  rw [brighten_eq c add hc ha]
  have h1 := mul_div_255_le c add ha
  have h2 := mul_div_255_le_right c add hc
  generalize c * add / 255 = q at h1 h2
  omega

/-- Witness for C20 at `c = 30`, `add = 37`. -/
theorem brighten_ge_witness :
    30 ≤ 255 ∧ 37 ≤ 255 ∧ 30 ≤ brighten 30 37 ∧ 37 ≤ brighten 30 37 :=
  ⟨by decide, by decide, brighten_ge 30 37 (by decide) (by decide)⟩

/-! ## Buffer lengths and draw counts -/

/-- A property of the loop state that every iteration preserves holds after the loop. -/
theorem forPixels_invariant {σ : Type} (body : σ → Nat × Nat → Option σ) (I : σ → Prop)
    (hstep : ∀ s c s', I s → body s c = some s' → I s') :
    ∀ (cs : List (Nat × Nat)) (s s' : σ), I s → forPixels body cs s = some s' → I s' := by
  intro cs
  induction cs with
  | nil =>
    intro s s' hI hrun
    simp only [forPixels, Option.some.injEq] at hrun
    rw [← hrun]
    exact hI
  | cons c cs ih =>
    intro s s' hI hrun
    simp only [forPixels] at hrun
    cases hb : body s c with
    | none =>
      rw [hb] at hrun
      exact absurd hrun (by simp)
    | some s1 =>
      rw [hb] at hrun
      exact ih s1 s' (hstep s c s1 hI hb) hrun

/-- An iteration of stage 1 keeps the length of `newImg.Pix`. -/
theorem stage1Pixel_length {F G : Type} (fo : FloatOps F) (rs : RandSource F G)
    (p : Params F) (stride w h : Nat) (src : List Nat)
    (s s' : Stage1State F G × List Nat) (c : Nat × Nat)
    (hrun : stage1Pixel fo rs p stride w h src s c = some s') : s'.2.length = s.2.length := by
  unfold stage1Pixel at hrun
  cases hd : stage1Draw fo rs p w s.1 c.2 with
  | none =>
    rw [hd] at hrun
    exact absurd hrun (by simp)
  | some d =>
    rw [hd] at hrun
    simp only at hrun
    cases hc : stage1Copy stride w h src s.2 c.1 c.2 d.1.1 d.1.2 with
    | none =>
      rw [hc] at hrun
      exact absurd hrun (by simp)
    | some pix =>
      rw [hc] at hrun
      simp only [Option.some.injEq] at hrun
      rw [← hrun]
      unfold stage1Copy at hc
      simp only at hc
      cases hr : readPixel src ((stride : Int) * wrap (c.2 + d.1.2) h + 4 * wrap (c.1 + d.1.1) w) with
      | none =>
        rw [hr] at hc
        exact absurd hc (by simp)
      | some px =>
        rw [hr] at hc
        exact writePixel_length _ _ _ _ hc

/-- An iteration of stage 2 keeps the length of `newImg1.Pix`. -/
theorem stage2Pixel_length {F G : Type} (fo : FloatOps F) (rs : RandSource F G)
    (p : Params F) (w add : Nat) (src : List Nat)
    (s s' : Stage2State F G × List Nat) (c : Nat × Nat)
    (hrun : stage2Pixel fo rs p w add src s c = some s') : s'.2.length = s.2.length := by
  unfold stage2Pixel at hrun
  cases hc : stage2Copy w add src s.2 c.1 c.2 (stage2Draw fo rs p s.1).1 with
  | none =>
    rw [hc] at hrun
    exact absurd hrun (by simp)
  | some pix =>
    rw [hc] at hrun
    simp only [Option.some.injEq] at hrun
    rw [← hrun]
    unfold stage2Copy at hc
    simp only at hc
    split at hc
    · exact writePixel_length _ _ _ _ hc
    · exact absurd hc (by simp)

/-- An iteration of stage 3 keeps the length of `newImg1.Pix`. -/
theorem stage3Pixel_length {F G : Type} (fo : FloatOps F) (rs : RandSource F G)
    (p : Params F) (w : Nat) (s s' : Rng G × List Nat) (c : Nat × Nat)
    (hrun : stage3Pixel fo rs p w s c = some s') : s'.2.length = s.2.length := by
  unfold stage3Pixel at hrun
  cases hc : stage3Copy w s.2 c.1 c.2 (stage3Draw fo rs p s.1).1 with
  | none =>
    rw [hc] at hrun
    exact absurd hrun (by simp)
  | some pix =>
    rw [hc] at hrun
    simp only [Option.some.injEq] at hrun
    rw [← hrun]
    unfold stage3Copy at hc
    simp only at hc
    split at hc
    · exact writePixel_length _ _ _ _ hc
    · exact absurd hc (by simp)

/-- The buffer allocated by `image.NewNRGBA` has `4*w*h` bytes. -/
theorem newNRGBA_length (w h : Nat) : (newNRGBA w h).length = 4 * w * h := by
  simp [newNRGBA]

/-- Whenever stage 1 completes, its buffer has `4*w*h` bytes. -/
theorem stage1_length {F G : Type} (fo : FloatOps F) (rs : RandSource F G)
    (p : Params F) (stride w h : Nat) (src : List Nat) (r : Rng G)
    (s1 : Stage1State F G × List Nat)
    (hrun : stage1 fo rs p stride w h src r = some s1) : s1.2.length = 4 * w * h :=
  forPixels_invariant (stage1Pixel fo rs p stride w h src) (fun s => s.2.length = 4 * w * h)
    (fun s c s' hI hs =>
      (stage1Pixel_length fo rs p stride w h src s s' c hs).trans hI)
    (scanOrder w h) _ s1 (newNRGBA_length w h) hrun

/-- Whenever stage 2 completes, its buffer has `4*w*h` bytes. -/
theorem stage2_length {F G : Type} (fo : FloatOps F) (rs : RandSource F G)
    (p : Params F) (w h : Nat) (src : List Nat) (r : Rng G)
    (s2 : Stage2State F G × List Nat)
    (hrun : stage2 fo rs p w h src r = some s2) : s2.2.length = 4 * w * h :=
  forPixels_invariant (stage2Pixel fo rs p w (addByte p.add) src)
    (fun s => s.2.length = 4 * w * h)
    (fun s c s' hI hs =>
      (stage2Pixel_length fo rs p w (addByte p.add) src s s' c hs).trans hI)
    (scanOrder w h) _ s2 (newNRGBA_length w h) hrun

/-- Whenever stage 3 completes, its buffer has the length it started with. -/
theorem stage3_length {F G : Type} (fo : FloatOps F) (rs : RandSource F G)
    (p : Params F) (w h : Nat) (pix : List Nat) (r : Rng G) (s3 : Rng G × List Nat)
    (hrun : stage3 fo rs p w h pix r = some s3) : s3.2.length = pix.length :=
  forPixels_invariant (stage3Pixel fo rs p w) (fun s => s.2.length = pix.length)
    (fun s c s' hI hs =>
      (stage3Pixel_length fo rs p w s s' c hs).trans hI)
    (scanOrder w h) _ s3 rfl hrun

/-- A completed run of `corrupt` is made of three completed stages. -/
theorem corrupt_stages {F G : Type} (fo : FloatOps F) (rs : RandSource F G)
    (p : Params F) (stride w h : Nat) (src : List Nat) (r : Rng G) (out : Rng G × List Nat)
    (hrun : corrupt fo rs p stride w h src r = some out) :
    ∃ s1 s2, stage1 fo rs p stride w h src r = some s1 ∧
      stage2 fo rs p w h s1.2 s1.1.rng = some s2 ∧
      stage3 fo rs p w h s2.2 s2.1.rng = some out := by
  unfold corrupt at hrun
  cases h1 : stage1 fo rs p stride w h src r with
  | none =>
    rw [h1] at hrun
    exact absurd hrun (by simp)
  | some s1 =>
    rw [h1] at hrun
    simp only at hrun
    cases h2 : stage2 fo rs p w h s1.2 s1.1.rng with
    | none =>
      rw [h2] at hrun
      exact absurd hrun (by simp)
    | some s2 =>
      rw [h2] at hrun
      exact ⟨s1, s2, rfl, h2, hrun⟩

/-- The draws of one stage-1 iteration: `Intn`, then `offset` and `NormFloat64` when a new
block begins, then two calls of `offset`. -/
theorem stage1Draw_calls {F G : Type} (fo : FloatOps F) (rs : RandSource F G)
    (p : Params F) (w : Nat) (st : Stage1State F G) (y : Nat)
    (d : (Int × Int) × Stage1State F G) (hd : stage1Draw fo rs p w st y = some d) :
    d.2.rng.calls =
      st.rng.calls + (if (rs.Intn st.rng.gen (int64 (p.bheight * w))).1 = 0 then 5 else 3) := by
  unfold stage1Draw stage1Block randIntn at hd
  by_cases hn : int64 (p.bheight * (w : Int)) ≤ 0
  · simp only [hn, if_true] at hd
    exact absurd hd (by simp)
  · simp only [hn, if_false] at hd
    by_cases hk : (rs.Intn st.rng.gen (int64 (p.bheight * w))).1 = 0
    · simp only [hk, if_true, Option.some.injEq] at hd
      rw [← hd, if_pos hk]
      simp only [offset, randNormFloat64]
    · simp only [hk, if_false, Option.some.injEq] at hd
      rw [← hd, if_neg hk]
      simp only [offset, randNormFloat64]

/-! ## Claims about dimensions and draws -/

/-- C11: dimensions are preserved.  For an input image of width `w` and height `h`, whatever
its stride and its bytes, the stage-1 buffer and the final output buffer are the buffers of
`image.NewNRGBA` for the same rectangle: stride `4*w`, height `h`, and `(4*w)*h` bytes, at
allocation and whenever stage 1, respectively the whole pipeline, has run. -/
theorem dimensions_preserved {F G : Type} (fo : FloatOps F) (rs : RandSource F G)
    (p : Params F) (stride w h : Nat) (src : List Nat) (r : Rng G) :
    (newNRGBA w h).length = (4 * w) * h ∧
      (∀ s1, stage1 fo rs p stride w h src r = some s1 → s1.2.length = (4 * w) * h) ∧
      (∀ out, corrupt fo rs p stride w h src r = some out → out.2.length = (4 * w) * h) := by
  refine ⟨newNRGBA_length w h, ?_, ?_⟩
  · intro s1 h1
    exact stage1_length fo rs p stride w h src r s1 h1
  · intro out hout
    obtain ⟨s1, s2, _, h2, h3⟩ := corrupt_stages fo rs p stride w h src r out hout
    rw [stage3_length fo rs p w h s2.2 s2.1.rng out h3]
    exact stage2_length fo rs p w h s1.2 s1.1.rng s2 h2

/-- Witness for C11: a completed run on a 4x4 image stored with stride 20 (one padding
pixel per row) delivers `(4*4)*4 = 64` bytes. -/
theorem dimensions_preserved_witness :
    ∃ out, corrupt decOps (scripted calmDraws) defaultParams 20 4 4
        (solid 20 ⟨10, 20, 30, 255⟩) ⟨0, 0⟩ = some out ∧ out.2.length = (4 * 4) * 4 := by
  have hsome : (corrupt decOps (scripted calmDraws) defaultParams 20 4 4
      (solid 20 ⟨10, 20, 30, 255⟩) ⟨0, 0⟩).isSome = true := by decide
  obtain ⟨out, hout⟩ := Option.isSome_iff_exists.1 hsome
  exact ⟨out, hout,
    (dimensions_preserved decOps (scripted calmDraws) defaultParams 20 4 4
      (solid 20 ⟨10, 20, 30, 255⟩) ⟨0, 0⟩).2.2 out hout⟩

/-- C16, as stated, fails: an iteration of stage 1 in which no block begins advances the
random stream by 3 draws and an iteration of stage 3 by 1 draw, neither of which lies
between 4 and 5; the completed 4x4 run makes `16 * (3 + 4 + 1) = 128` draws. -/
theorem draws_counterexample :
    (stage1Pixel decOps (scripted zeroDraws) defaultParams 16 4 4 (solid 16 ⟨10, 20, 30, 255⟩)
        (⟨⟨0, 0⟩, 0, decOps.zero, 0⟩, newNRGBA 4 4) (0, 0)).map (fun s => s.1.rng.calls) =
        some 3 ∧
      (stage3Pixel decOps (scripted zeroDraws) stillParams 4
        (⟨0, 0⟩, solid 16 ⟨10, 20, 30, 255⟩) (0, 0)).map (fun s => s.1.calls) = some 1 ∧
      (corrupt decOps (scripted calmDraws) defaultParams 16 4 4 (solid 16 ⟨10, 20, 30, 255⟩)
        ⟨0, 0⟩).map (fun o => o.1.calls) = some 128 := by
  decide

/-- C16, amended: every stage consumes a small constant number of random draws per pixel.
For every pixel processed, stage 1 advances the random stream by 3 draws, or by 5 when
`Intn` returns `0` and a new block begins; stage 2 advances it by 4 draws; stage 3 by 1. -/
theorem draws_per_pixel {F G : Type} (fo : FloatOps F) (rs : RandSource F G)
    (p : Params F) (stride w h add : Nat) (src newPix : List Nat) :
    (∀ s c s', stage1Pixel fo rs p stride w h src s c = some s' →
        s'.1.rng.calls =
          s.1.rng.calls +
            (if (rs.Intn s.1.rng.gen (int64 (p.bheight * w))).1 = 0 then 5 else 3)) ∧
      (∀ s c s', stage2Pixel fo rs p w add newPix s c = some s' →
        s'.1.rng.calls = s.1.rng.calls + 4) ∧
      (∀ s c s', stage3Pixel fo rs p w s c = some s' → s'.1.calls = s.1.calls + 1) := by
  refine ⟨?_, ?_, ?_⟩
  · intro s c s' hrun
    unfold stage1Pixel at hrun
    cases hd : stage1Draw fo rs p w s.1 c.2 with
    | none =>
      rw [hd] at hrun
      exact absurd hrun (by simp)
    | some d =>
      rw [hd] at hrun
      simp only at hrun
      cases hc : stage1Copy stride w h src s.2 c.1 c.2 d.1.1 d.1.2 with
      | none =>
        rw [hc] at hrun
        exact absurd hrun (by simp)
      | some pix =>
        rw [hc] at hrun
        simp only [Option.some.injEq] at hrun
        rw [← hrun]
        exact stage1Draw_calls fo rs p w s.1 c.2 d hd
  · intro s c s' hrun
    unfold stage2Pixel at hrun
    cases hc : stage2Copy w add newPix s.2 c.1 c.2 (stage2Draw fo rs p s.1).1 with
    | none =>
      rw [hc] at hrun
      exact absurd hrun (by simp)
    | some pix =>
      rw [hc] at hrun
      simp only [Option.some.injEq] at hrun
      rw [← hrun]
      simp [stage2Draw, offset, randNormFloat64]
  · intro s c s' hrun
    unfold stage3Pixel at hrun
    cases hc : stage3Copy w s.2 c.1 c.2 (stage3Draw fo rs p s.1).1 with
    | none =>
      rw [hc] at hrun
      exact absurd hrun (by simp)
    | some pix =>
      rw [hc] at hrun
      simp only [Option.some.injEq] at hrun
      rw [← hrun]
      simp [stage3Draw, offset, randNormFloat64]

/-- Witness for C16 (amended): with a generator whose `Intn` returns `0` the first
iteration of stage 1 on the 4x4 image begins a block and makes 5 draws. -/
theorem draws_per_pixel_witness :
    ∃ s', stage1Pixel decOps (scriptedBlock zeroDraws) defaultParams 16 4 4
        (solid 16 ⟨10, 20, 30, 255⟩) (⟨⟨0, 0⟩, 0, decOps.zero, 0⟩, newNRGBA 4 4) (0, 0) =
        some s' ∧ s'.1.rng.calls = 5 := by
  have hsome : (stage1Pixel decOps (scriptedBlock zeroDraws) defaultParams 16 4 4
      (solid 16 ⟨10, 20, 30, 255⟩) (⟨⟨0, 0⟩, 0, decOps.zero, 0⟩, newNRGBA 4 4)
      (0, 0)).isSome = true := by decide
  obtain ⟨s', hs'⟩ := Option.isSome_iff_exists.1 hsome
  exact ⟨s', hs',
    (draws_per_pixel decOps (scriptedBlock zeroDraws) defaultParams 16 4 4 0
      (solid 16 ⟨10, 20, 30, 255⟩) []).1 _ _ s' hs'⟩

/-! ## Claims about the copies of stage 1 and stage 3 -/

/-- C12: stage 1 copies pixels verbatim.  In an iteration at a destination pixel `(x, y)`
whose offsets `(offx, offy)` keep `x+offx` in `[-w, 2*w)` and `y+offy` in `[-h, 2*h)`, the
iteration succeeds and the four bytes stored at `Stride*y + 4*x` of the stage-1 buffer are
the four bytes of the source pixel at `(wrap (x+offx) w, wrap (y+offy) h)`.  Hence, when
every iteration of the stage is in range, stage 1 completes and every pixel of its buffer
equals some pixel of the source image. -/
theorem stage1_copies_verbatim {F G : Type} (fo : FloatOps F) (rs : RandSource F G)
    (p : Params F) (stride w h : Nat) (src : List Nat)
    (hstride : 4 * w ≤ stride) (hsrc : stride * h ≤ src.length) :
    (∀ (st st' : Stage1State F G) (dst : List Nat) (x y : Nat) (off : Int × Int),
        x < w → y < h → dst.length = 4 * w * h →
        stage1Draw fo rs p w st y = some (off, st') →
        inWrapRange (x + off.1) w = true → inWrapRange (y + off.2) h = true →
        ∃ dst' px, stage1Pixel fo rs p stride w h src (st, dst) (x, y) = some (st', dst') ∧
          readPixel src ((stride : Int) * wrap (y + off.2) h + 4 * wrap (x + off.1) w) =
            some px ∧
          readPixel dst' (((4 * w : Nat) : Int) * (y : Int) + 4 * (x : Int)) = some px) ∧
      (∀ r : Rng G, 0 < int64 (p.bheight * w) →
        stage1InRange fo rs p w h (scanOrder w h) ⟨r, 0, fo.zero, 0⟩ = true →
        ∃ s1, stage1 fo rs p stride w h src r = some s1 ∧
          ∀ x : Nat, x < w → ∀ y : Nat, y < h → ∃ (sx sy : Nat) (px : RGBA), sx < w ∧ sy < h ∧
            readPixel s1.2 (((4 * w : Nat) : Int) * (y : Int) + 4 * (x : Int)) = some px ∧
            readPixel src ((stride : Int) * (sy : Int) + 4 * (sx : Int)) = some px) := by
  have hcast : ∀ sx sy : Nat,
      (stride : Int) * (sy : Int) + 4 * (sx : Int) = ((stride * sy + 4 * sx : Nat) : Int) := by
    intro sx sy
    push_cast
    ring
  constructor
  · intro st st' dst x y off hx hy hlen hd hox hoy
    obtain ⟨sx, sy, dst', hsx, hsy, ex, ey, hcopy, hwrite⟩ :=
      stage1Copy_spec stride w h src dst x y off.1 off.2 hstride hsrc hlen hx hy hox hoy
    have hb := src_index_bound stride w h sx sy hstride hsx hsy
    have hi := index_bound w h x y hx hy
    have hlen' : dst'.length = 4 * w * h := by
      rw [writePixel_length dst dst' _ _ hwrite, hlen]
    refine ⟨dst', pixelAt src (stride * sy + 4 * sx), ?_, ?_, ?_⟩
    · simp only [stage1Pixel, hd, hcopy]
    · rw [ex, ey, hcast, readPixel_some src _ (by omega)]
    · rw [index_cast, readPixel_some dst' _ (by omega),
        pixelAt_writePixel dst dst' (w * y + x) _ hwrite (w * y + x), if_pos rfl]
  · intro r hbh hin
    obtain ⟨s1, hrun, hl, hq⟩ := stage1_loop fo rs p stride w h src
      (fun px => ∃ sx sy, sx < w ∧ sy < h ∧ px = pixelAt src (stride * sy + 4 * sx))
      hbh hstride hsrc (fun sx sy hx hy => ⟨sx, sy, hx, hy, rfl⟩)
      (scanOrder w h) ⟨r, 0, fo.zero, 0⟩ (newNRGBA w h) (scanOrder_bound w h)
      (newNRGBA_length w h) hin
    refine ⟨s1, hrun, ?_⟩
    intro x hx y hy
    obtain ⟨sx, sy, hsx, hsy, hpx⟩ :=
      hq (w * y + x) (Or.inr ⟨(x, y), scanOrder_mem w h x y hx hy, rfl⟩)
    have hb := src_index_bound stride w h sx sy hstride hsx hsy
    have hi := index_bound w h x y hx hy
    refine ⟨sx, sy, pixelAt src (stride * sy + 4 * sx), hsx, hsy, ?_, ?_⟩
    · rw [index_cast, readPixel_some s1.2 _ (by omega), hpx]
    · rw [hcast, readPixel_some src _ (by omega)]

/-- Witness for C12: stage 1 on the 2x2 image `sample2x2` with the default flags and draws
`0.0`. -/
theorem stage1_copies_verbatim_witness :
    ∃ s1, stage1 decOps (scripted zeroDraws) defaultParams 8 2 2
        sample2x2 ⟨0, 0⟩ = some s1 ∧
      ∀ x : Nat, x < 2 → ∀ y : Nat, y < 2 → ∃ (sx sy : Nat) (px : RGBA), sx < 2 ∧ sy < 2 ∧
        readPixel s1.2 (((4 * 2 : Nat) : Int) * (y : Int) + 4 * (x : Int)) = some px ∧
        readPixel sample2x2
          (((8 : Nat) : Int) * (sy : Int) + 4 * (sx : Int)) = some px :=
  (stage1_copies_verbatim decOps (scripted zeroDraws) defaultParams 8 2 2
    sample2x2 (by decide) (by decide)).2
    ⟨0, 0⟩ (by decide) (by decide)

/-- Stage 3 under the caller obligation never changes a green byte: the loop runs to its
end and the green channel of every pixel is the one it started with. -/
theorem stage3_green_loop {F G : Type} (fo : FloatOps F) (rs : RandSource F G)
    (p : Params F) (w h : Nat) :
    ∀ (cs : List (Nat × Nat)) (r : Rng G) (pix : List Nat),
      (∀ c ∈ cs, c.1 < w ∧ c.2 < h) → pix.length = 4 * w * h →
      stage3InRange fo rs p w cs r = true →
      ∃ s', forPixels (stage3Pixel fo rs p w) cs (r, pix) = some s' ∧
        s'.2.length = 4 * w * h ∧ ∀ k, (pixelAt s'.2 (4 * k)).g = (pixelAt pix (4 * k)).g := by
  intro cs
  induction cs with
  | nil =>
    intro r pix _ hlen _
    exact ⟨(r, pix), rfl, hlen, fun _ => rfl⟩
  | cons c cs ih =>
    intro r pix hgrid hlen hin
    have hc := hgrid c (List.mem_cons_self c cs)
    simp only [stage3InRange, Bool.and_eq_true] at hin
    obtain ⟨⟨hr, hb⟩, hrest⟩ := hin
    obtain ⟨rx, bx, pix1, _, _, _, _, hcopy, hwrite⟩ :=
      stage3Copy_spec w h pix c.1 c.2 (stage3Draw fo rs p r).1 hlen hc.1 hc.2 hr hb
    have hlen1 : pix1.length = 4 * w * h := by
      rw [writePixel_length pix pix1 _ _ hwrite, hlen]
    obtain ⟨s', hrun, hl', hg'⟩ := ih (stage3Draw fo rs p r).2 pix1
      (fun c' hc' => hgrid c' (List.mem_cons_of_mem c hc')) hlen1 hrest
    refine ⟨s', ?_, hl', ?_⟩
    · simp only [forPixels, stage3Pixel, hcopy]
      exact hrun
    · intro k
      rw [hg' k, pixelAt_writePixel pix pix1 (w * c.2 + c.1) _ hwrite k]
      split_ifs with hk
      · rw [hk]
      · rfl

/-- C15: stage 3 takes green from the unshifted position, so it never changes the green
channel.  For every buffer of a `w × h` image and every generator under which each
coordinate passed to `wrap` lies in `[-w, 2*w)`, stage 3 completes and the green byte of
every pixel `(x, y)` after the stage equals its green byte before the stage (the stage-2
output), in spite of the in-place writes. -/
theorem stage3_green_unchanged {F G : Type} (fo : FloatOps F) (rs : RandSource F G)
    (p : Params F) (w h : Nat) (pix : List Nat) (r : Rng G)
    (hlen : pix.length = 4 * w * h)
    (hin : stage3InRange fo rs p w (scanOrder w h) r = true) :
    ∃ s3, stage3 fo rs p w h pix r = some s3 ∧
      ∀ x : Nat, x < w → ∀ y : Nat, y < h →
        readByte s3.2 (((4 * w : Nat) : Int) * (y : Int) + 4 * (x : Int) + 1) =
          readByte pix (((4 * w : Nat) : Int) * (y : Int) + 4 * (x : Int) + 1) := by
  obtain ⟨s3, hrun, hl, hg⟩ := stage3_green_loop fo rs p w h (scanOrder w h) r pix
    (scanOrder_bound w h) hlen hin
  refine ⟨s3, hrun, ?_⟩
  intro x hx y hy
  rw [(readByte_channels w h s3.2 hl y x hx hy).2.1,
    (readByte_channels w h pix hlen y x hx hy).2.1, hg]

/-- Witness for C15: stage 3 on the 2x2 buffer `sample2x2`, mean aberration
`1` and draws `0.0`, so that red, alpha and blue are taken from the neighbouring pixels. -/
theorem stage3_green_unchanged_witness :
    stage3InRange decOps (scripted zeroDraws) shiftParams
        2 (scanOrder 2 2) ⟨0, 0⟩ = true ∧
      ∃ s3, stage3 decOps (scripted zeroDraws) shiftParams
          2 2 sample2x2 ⟨0, 0⟩ = some s3 ∧
        ∀ x : Nat, x < 2 → ∀ y : Nat, y < 2 →
          readByte s3.2 (((4 * 2 : Nat) : Int) * (y : Int) + 4 * (x : Int) + 1) =
            readByte sample2x2
              (((4 * 2 : Nat) : Int) * (y : Int) + 4 * (x : Int) + 1) :=
  ⟨by decide,
    stage3_green_unchanged decOps (scripted zeroDraws) shiftParams
      2 2 sample2x2 ⟨0, 0⟩ (by decide)
      (by decide)⟩

/-! ## Claims about safety and the alpha channel -/

/-- A wrapped column of row `y` addresses four bytes inside a tightly packed buffer. -/
theorem wrapped_index_bound (w h x y : Nat) (off : Int) (_hx : x < w) (hy : y < h)
    (hin : inWrapRange (x + off) w = true) :
    0 ≤ ((4 * w : Nat) : Int) * (y : Int) + 4 * wrap (x + off) w ∧
      ((4 * w : Nat) : Int) * (y : Int) + 4 * wrap (x + off) w + 3 < ((4 * w * h : Nat) : Int) := by
  obtain ⟨n, hn, en⟩ := wrap_toNat _ w hin
  have hb := index_bound w h n y hn hy
  rw [en, index_cast]
  omega

/-- The 64-bit product `bHeight*b.Max.X`: `10 * 4` is `40`, and `2^62 * 4` wraps to `0`. -/
theorem int64_product_examples :
    int64 (10 * 4) = 40 ∧ int64 (4611686018427387904 * 4) = 0 ∧
      int64 (-1 * 4) = -4 ∧ int64 (9223372036854775807 * 2) = -2 := by
  decide

/-- With a non-positive argument of `Intn` stage 1 panics in its first iteration. -/
theorem stage1_intn_panic {F G : Type} (fo : FloatOps F) (rs : RandSource F G)
    (p : Params F) (stride w h : Nat) (src : List Nat) (r : Rng G) (x y : Nat)
    (hx : x < w) (hy : y < h) (hbh : ¬ 0 < int64 (p.bheight * w)) :
    stage1 fo rs p stride w h src r = none := by
  have hmem := scanOrder_mem w h x y hx hy
  have hle : int64 (p.bheight * (w : Int)) ≤ 0 := by omega
  unfold stage1
  cases hso : scanOrder w h with
  | nil =>
    rw [hso] at hmem
    exact absurd hmem (by simp)
  | cons c cs =>
    simp [forPixels, stage1Pixel, stage1Draw, stage1Block, randIntn, hle]

/-- C14: under the caller obligation of `wrap`, for an input buffer with stride at least
`4*w` and length `stride*h`, every byte index that the three stages read or write lies
inside the buffer it addresses: in stage 1 the source slice `srcIdx..srcIdx+3` and the
destination slice `dstIdx..dstIdx+3`; in stages 2 and 3 every index between a wrapped pixel
base `Stride*y + 4*wrap(x+off)` and that base plus 3 (this covers `raIdx`, `raIdx+3`,
`gIdx+1`, `bIdx+2`), so that each copy succeeds.  Consequently the pipeline completes; its
only remaining failure is the panic of `Intn` for `bheight*width ≤ 0`, which precedes every
buffer access. -/
theorem accesses_in_bounds {F G : Type} (fo : FloatOps F) (rs : RandSource F G)
    (p : Params F) (stride w h : Nat) (src : List Nat) (r : Rng G)
    (hstride : 4 * w ≤ stride) (hsrc : src.length = stride * h)
    (hob : wrapObligation fo rs p stride w h src r = true) :
    (∀ (x y : Nat) (offx offy : Int) (dst : List Nat), x < w → y < h →
        dst.length = 4 * w * h →
        inWrapRange (x + offx) w = true → inWrapRange (y + offy) h = true →
        0 ≤ (stride : Int) * wrap (y + offy) h + 4 * wrap (x + offx) w ∧
          (stride : Int) * wrap (y + offy) h + 4 * wrap (x + offx) w + 3 < (src.length : Int) ∧
          0 ≤ ((4 * w : Nat) : Int) * (y : Int) + 4 * (x : Int) ∧
          ((4 * w : Nat) : Int) * (y : Int) + 4 * (x : Int) + 3 < (dst.length : Int) ∧
          (stage1Copy stride w h src dst x y offx offy).isSome = true) ∧
      (∀ (x y : Nat) (off : Int), x < w → y < h → inWrapRange (x + off) w = true →
        0 ≤ ((4 * w : Nat) : Int) * (y : Int) + 4 * wrap (x + off) w ∧
          ((4 * w : Nat) : Int) * (y : Int) + 4 * wrap (x + off) w + 3 <
            ((4 * w * h : Nat) : Int)) ∧
      (∀ (x y add : Nat) (off : Stage2Off) (newPix newPix1 : List Nat), x < w → y < h →
        newPix.length = 4 * w * h → newPix1.length = 4 * w * h →
        inWrapRange (x + off.red) w = true → inWrapRange (x + off.green) w = true →
        inWrapRange (x + off.blue) w = true →
        (stage2Copy w add newPix newPix1 x y off).isSome = true) ∧
      (∀ (x y : Nat) (offx : Int) (newPix1 : List Nat), x < w → y < h →
        newPix1.length = 4 * w * h →
        inWrapRange (x + offx) w = true → inWrapRange (x - offx) w = true →
        (stage3Copy w newPix1 x y offx).isSome = true) ∧
      ((∃ out, corrupt fo rs p stride w h src r = some out) ∨ int64 (p.bheight * w) ≤ 0) := by
  refine ⟨?_, ?_, ?_, ?_, ?_⟩
  · intro x y offx offy dst hx hy hlen hox hoy
    obtain ⟨sx, sy, dst', hsx, hsy, ex, ey, hcopy, _⟩ :=
      stage1Copy_spec stride w h src dst x y offx offy hstride (by omega) hlen hx hy hox hoy
    have hb := src_index_bound stride w h sx sy hstride hsx hsy
    have hi := index_bound w h x y hx hy
    have e : (stride : Int) * (sy : Int) + 4 * (sx : Int) =
        ((stride * sy + 4 * sx : Nat) : Int) := by
      push_cast
      ring
    rw [ex, ey, e, index_cast, hcopy]
    refine ⟨by omega, by omega, by omega, by omega, rfl⟩
  · intro x y off hx hy hin
    exact wrapped_index_bound w h x y off hx hy hin
  · intro x y add off newPix newPix1 hx hy hl hl1 hr hg hb
    obtain ⟨_, _, _, dst', _, _, _, _, _, _, hcopy, _⟩ :=
      stage2Copy_spec w h add newPix newPix1 x y off hl hl1 hx hy hr hg hb
    rw [hcopy]
    rfl
  · intro x y offx newPix1 hx hy hl hr hb
    obtain ⟨_, _, pix', _, _, _, _, hcopy, _⟩ :=
      stage3Copy_spec w h newPix1 x y offx hl hx hy hr hb
    rw [hcopy]
    rfl
  · by_cases hbh : 0 < int64 (p.bheight * w)
    · obtain ⟨out, hrun, _, _⟩ := corrupt_under_obligation fo rs p stride w h src r
        (fun _ => True) (fun _ => True) hbh hstride (by omega)
        (fun _ _ _ _ => trivial) (fun _ _ _ _ _ _ => trivial) (fun _ _ _ _ _ _ => trivial) hob
      exact Or.inl ⟨out, hrun⟩
    · exact Or.inr (by omega)

/-- Witness for C14: the 4x4 image stored with stride 20, the default flags and the draws
`calmDraws`. -/
theorem accesses_in_bounds_witness :
    wrapObligation decOps (scripted calmDraws) defaultParams 20 4 4
        (solid 20 ⟨10, 20, 30, 255⟩) ⟨0, 0⟩ = true ∧
      ((∃ out, corrupt decOps (scripted calmDraws) defaultParams 20 4 4
          (solid 20 ⟨10, 20, 30, 255⟩) ⟨0, 0⟩ = some out) ∨
        int64 (defaultParams.bheight * ((4 : Nat) : Int)) ≤ 0) :=
  ⟨by decide,
    (accesses_in_bounds decOps (scripted calmDraws) defaultParams 20 4 4
      (solid 20 ⟨10, 20, 30, 255⟩) ⟨0, 0⟩ (by decide) (by decide) (by decide)).2.2.2.2⟩

/-- C18: alpha is only ever copied.  If every pixel of the input image has alpha `A`, then
for every parameter set and every generator under which each coordinate passed to `wrap`
lies in `[-bound, 2*bound)`, every pixel of the final output of the pipeline has alpha `A`;
and the final output exists whenever the argument `bheight*width` of `Intn` is positive. -/
theorem alpha_preserved {F G : Type} (fo : FloatOps F) (rs : RandSource F G)
    (p : Params F) (stride w h : Nat) (src : List Nat) (r : Rng G) (A : Nat)
    (hstride : 4 * w ≤ stride) (hsrc : stride * h ≤ src.length)
    (halpha : ∀ x : Nat, x < w → ∀ y : Nat, y < h →
      readByte src ((stride : Int) * (y : Int) + 4 * (x : Int) + 3) = some A)
    (hob : wrapObligation fo rs p stride w h src r = true) :
    (∀ out, corrupt fo rs p stride w h src r = some out →
        ∀ x : Nat, x < w → ∀ y : Nat, y < h →
          readByte out.2 (((4 * w : Nat) : Int) * (y : Int) + 4 * (x : Int) + 3) = some A) ∧
      (0 < int64 (p.bheight * w) → ∃ out, corrupt fo rs p stride w h src r = some out) := by
  have hQ0 : ∀ sx sy, sx < w → sy < h → (pixelAt src (stride * sy + 4 * sx)).a = A := by
    intro sx sy hx hy
    have hb := src_index_bound stride w h sx sy hstride hx hy
    have ha := halpha sx hx sy hy
    have e : (stride : Int) * (sy : Int) + 4 * (sx : Int) + 3 =
        ((stride * sy + 4 * sx + 3 : Nat) : Int) := by
      push_cast
      ring
    rw [e, readByte_some src _ (by omega)] at ha
    exact Option.some.inj ha
  have hgo : 0 < int64 (p.bheight * w) →
      ∃ out, corrupt fo rs p stride w h src r = some out ∧
      out.2.length = 4 * w * h ∧ ∀ k, k < w * h → (pixelAt out.2 (4 * k)).a = A := by
    intro hbh
    exact corrupt_under_obligation fo rs p stride w h src r
      (fun px => px.a = A) (fun px => px.a = A) hbh hstride hsrc hQ0
      (fun p1 _ _ h1 _ _ => h1) (fun p1 _ _ h1 _ _ => h1) hob
  constructor
  · intro out hout x hx y hy
    by_cases hbh : 0 < int64 (p.bheight * w)
    · obtain ⟨out', hrun, hl, hq⟩ := hgo hbh
      have e : out = out' := Option.some.inj (hout.symm.trans hrun)
      rw [e, (readByte_channels w h out'.2 hl y x hx hy).2.2.2,
        hq _ (pixel_number_bound w h x y hx hy)]
    · obtain ⟨s1, _, h1, _, _⟩ := corrupt_stages fo rs p stride w h src r out hout
      rw [stage1_intn_panic fo rs p stride w h src r x y hx hy hbh] at h1
      exact absurd h1 (by simp)
  · intro hbh
    obtain ⟨out, hrun, _, _⟩ := hgo hbh
    exact ⟨out, hrun⟩

/-- Witness for C18: the 4x4 image of colour `(10,20,30,200)` stored with stride 20, the
default flags and the draws `calmDraws`; every output pixel has alpha `200`. -/
theorem alpha_preserved_witness :
    wrapObligation decOps (scripted calmDraws) defaultParams 20 4 4
        (solid 20 ⟨10, 20, 30, 200⟩) ⟨0, 0⟩ = true ∧
      ∃ out, corrupt decOps (scripted calmDraws) defaultParams 20 4 4
          (solid 20 ⟨10, 20, 30, 200⟩) ⟨0, 0⟩ = some out ∧
        ∀ x : Nat, x < 4 → ∀ y : Nat, y < 4 →
          readByte out.2 (((4 * 4 : Nat) : Int) * (y : Int) + 4 * (x : Int) + 3) = some 200 := by
  have hthm := alpha_preserved decOps (scripted calmDraws) defaultParams 20 4 4
    (solid 20 ⟨10, 20, 30, 200⟩) ⟨0, 0⟩ 200 (by decide) (by decide) (by decide) (by decide)
  obtain ⟨out, hout⟩ := hthm.2 (by decide)
  exact ⟨by decide, out, hout, hthm.1 out hout⟩

/-! ## The conversion in `offset` -/

/-- Truncation toward zero of `m / b` for `b > 0`: the quotient `Int.tdiv m b` has magnitude
`|m| / b` and never the sign opposite to `m`. -/
theorem tdiv_trunc (m : Int) (b : Nat) (hb : 0 < b) :
    (Int.tdiv m b).natAbs * b ≤ m.natAbs ∧ m.natAbs < ((Int.tdiv m b).natAbs + 1) * b ∧
      0 ≤ Int.tdiv m b * m ∧ (m.natAbs < b → Int.tdiv m b = 0) := by
  have habs : (Int.tdiv m b).natAbs = m.natAbs / b := by
    rw [Int.natAbs_tdiv]
    rfl
  refine ⟨?_, ?_, ?_, ?_⟩
  · rw [habs]
    exact Nat.div_mul_le_self _ _
  · rw [habs, Nat.mul_comm]
    exact Nat.lt_mul_div_succ _ hb
  · rcases Int.le_total 0 m with hm | hm
    · exact Int.mul_nonneg (Int.tdiv_nonneg hm (Int.ofNat_nonneg b)) hm
    · have h1 : 0 ≤ Int.tdiv (-m) b := Int.tdiv_nonneg (by omega) (Int.ofNat_nonneg b)
      rw [Int.neg_tdiv] at h1
      have h2 : Int.tdiv m b ≤ 0 := by omega
      exact Int.mul_nonneg_of_nonpos_of_nonpos h2 hm
  · intro hlt
    have h0 : (Int.tdiv m b).natAbs = 0 := by
      rw [habs]
      exact Nat.div_eq_of_lt hlt
    exact Int.natAbs_eq_zero.1 h0

/-- C13: `offset(stddev)` returns the drawn normal deviate multiplied by `stddev` and
truncated toward zero, not rounded.  Finite `float64` values are read as exact decimals
`m / 10^e`; the product is whatever the `float64` multiplication `fo.mul` delivers, the
conversion `int(sample)` is truncation toward zero (`htrunc`), a product with `0` has
value `0` (`hmul0`) and the sample lies in the range of the 64-bit `int` (`_hrange`; outside
it Go leaves the converted value to the implementation).  Then the result is the truncated
sample, its magnitude is at most `|sample|` and more than `|sample| - 1`, its sign never
opposes that of the sample, a sample strictly between `-1` and `1` gives `0`, and
`offset(0)` is `0` for every draw. -/
theorem offset_truncates {G : Type} (fo : FloatOps Dec) (rs : RandSource Dec G)
    (stddev : Dec) (r : Rng G)
    (htrunc : ∀ s : Dec, fo.toInt s = Dec.toInt s)
    (hmul0 : ∀ d s : Dec, s.m = 0 → (fo.mul d s).m = 0)
    (_hrange : (offsetSample fo rs stddev r).m.natAbs <
      9223372036854775808 * 10 ^ (offsetSample fo rs stddev r).e) :
    (offset fo rs stddev r).1 = Dec.toInt (offsetSample fo rs stddev r) ∧
      (offset fo rs stddev r).1.natAbs * 10 ^ (offsetSample fo rs stddev r).e ≤
        (offsetSample fo rs stddev r).m.natAbs ∧
      (offsetSample fo rs stddev r).m.natAbs <
        ((offset fo rs stddev r).1.natAbs + 1) * 10 ^ (offsetSample fo rs stddev r).e ∧
      0 ≤ (offset fo rs stddev r).1 * (offsetSample fo rs stddev r).m ∧
      ((offsetSample fo rs stddev r).m.natAbs < 10 ^ (offsetSample fo rs stddev r).e →
        (offset fo rs stddev r).1 = 0) ∧
      (stddev.m = 0 → (offset fo rs stddev r).1 = 0) := by
  have hoff : (offset fo rs stddev r).1 = Dec.toInt (offsetSample fo rs stddev r) :=
    htrunc _
  have hpow : ((10 : Int) ^ (offsetSample fo rs stddev r).e) =
      ((10 ^ (offsetSample fo rs stddev r).e : Nat) : Int) := by
    push_cast
    rfl
  have hpos : 0 < 10 ^ (offsetSample fo rs stddev r).e := Nat.pow_pos (by decide)
  have ht := tdiv_trunc (offsetSample fo rs stddev r).m
    (10 ^ (offsetSample fo rs stddev r).e) hpos
  have hdef : Dec.toInt (offsetSample fo rs stddev r) =
      Int.tdiv (offsetSample fo rs stddev r).m
        ((10 ^ (offsetSample fo rs stddev r).e : Nat) : Int) := by
    unfold Dec.toInt
    rw [hpow]
  rw [hoff, hdef]
  refine ⟨rfl, ht.1, ht.2.1, ht.2.2.1, ht.2.2.2, ?_⟩
  intro hz
  have hm : (offsetSample fo rs stddev r).m = 0 := hmul0 _ _ hz
  rw [hm]
  exact Int.zero_tdiv _

/-- Witness for C13: exact decimal arithmetic, the draw `-1.233758` and `stddev = 7`: the
sample is `-8.636306` and `offset` returns `-8`, not the nearest integer `-9`. -/
theorem offset_truncates_witness :
    (offset decOps (scripted steadyDraws) ⟨7, 0⟩ ⟨0, 0⟩).1 = -8 ∧
      (offsetSample decOps (scripted steadyDraws) ⟨7, 0⟩ ⟨0, 0⟩).m = -8636306 ∧
      (offsetSample decOps (scripted steadyDraws) ⟨7, 0⟩ ⟨0, 0⟩).e = 6 ∧
      ((offset decOps (scripted steadyDraws) ⟨7, 0⟩ ⟨0, 0⟩).1 =
          Dec.toInt (offsetSample decOps (scripted steadyDraws) ⟨7, 0⟩ ⟨0, 0⟩) ∧
        (offset decOps (scripted steadyDraws) ⟨7, 0⟩ ⟨0, 0⟩).1.natAbs *
            10 ^ (offsetSample decOps (scripted steadyDraws) ⟨7, 0⟩ ⟨0, 0⟩).e ≤
          (offsetSample decOps (scripted steadyDraws) ⟨7, 0⟩ ⟨0, 0⟩).m.natAbs ∧
        (offsetSample decOps (scripted steadyDraws) ⟨7, 0⟩ ⟨0, 0⟩).m.natAbs <
          ((offset decOps (scripted steadyDraws) ⟨7, 0⟩ ⟨0, 0⟩).1.natAbs + 1) *
            10 ^ (offsetSample decOps (scripted steadyDraws) ⟨7, 0⟩ ⟨0, 0⟩).e ∧
        0 ≤ (offset decOps (scripted steadyDraws) ⟨7, 0⟩ ⟨0, 0⟩).1 *
          (offsetSample decOps (scripted steadyDraws) ⟨7, 0⟩ ⟨0, 0⟩).m ∧
        ((offsetSample decOps (scripted steadyDraws) ⟨7, 0⟩ ⟨0, 0⟩).m.natAbs <
            10 ^ (offsetSample decOps (scripted steadyDraws) ⟨7, 0⟩ ⟨0, 0⟩).e →
          (offset decOps (scripted steadyDraws) ⟨7, 0⟩ ⟨0, 0⟩).1 = 0) ∧
        (((⟨7, 0⟩ : Dec).m = 0) →
          (offset decOps (scripted steadyDraws) ⟨7, 0⟩ ⟨0, 0⟩).1 = 0)) :=
  ⟨by decide, by decide, by decide,
    offset_truncates decOps (scripted steadyDraws) ⟨7, 0⟩ ⟨0, 0⟩ (fun _ => rfl)
      (fun d s hs => by
        show d.m * s.m = 0
        rw [hs, Int.mul_zero])
      (by decide)⟩

end ImageCorrupter
